import Mathlib

/-!
# Contact manifold insertion (`src/physics/contact_insertion.c`)

A shallow embedding of `contactInsert`, the routine that merges a new
narrow-phase result (`struct EpaResult`) into the bounded cache of contact
points of a colliding pair (`struct ContactManifold`), followed by the
properties of that routine.

Conventions of the embedding.

* C `float` is idealised as an exact ordered number (`Scalar := ℚ`): the routine
  only copies floats, compares them with `>` and stores the constants `0.0f`
  and `-10000.0f`; there is no rounding and no NaN in the model.
* C `int` is `Int`; the only arithmetic is `insertIndex + 1` with
  `insertIndex < MAX_CONTACT_COUNT`, and `&` is two's complement `Int.land`.
* `MAX_CONTACT_COUNT`, the struct declarations and the three `vector3` helpers
  come from `contact_insertion.h` and the math library. The constant is a
  parameter, the helpers are a parameter (`Vector3Ops`), and the structs carry
  the fields the routine touches.
* The array `contacts[MAX_CONTACT_COUNT]` is a list; reading or writing a slot
  that does not exist is the error `Fault.indexOutOfRange`.
-/

namespace Portal64

/-- C `float`, idealised as an exact ordered number. -/
abbrev Scalar := ℚ

/-- The `struct Vector3` of the math library: three floats. -/
structure Vector3 where
  x : Scalar
  y : Scalar
  z : Scalar
deriving DecidableEq

/-- The fields of `struct ContactPoint` that `contactInsert` reads or writes.
`tangentImpulse[2]` and `tangentMass[2]` are two fields each. -/
structure ContactPoint where
  id : Int
  contactALocal : Vector3
  contactBLocal : Vector3
  penetration : Scalar
  normalImpulse : Scalar
  tangentImpulse0 : Scalar
  tangentImpulse1 : Scalar
  bias : Scalar
  normalMass : Scalar
  tangentMass0 : Scalar
  tangentMass1 : Scalar
deriving DecidableEq

/-- The fields of `struct ContactManifold` that `contactInsert` reads or writes.
`contacts` stands for the array `contacts[MAX_CONTACT_COUNT]`,
`tangentVectors[2]` is two fields. -/
structure ContactManifold where
  contacts : List ContactPoint
  contactCount : Int
  normal : Vector3
  tangentVectors0 : Vector3
  tangentVectors1 : Vector3
deriving DecidableEq

/-- The fields of `struct EpaResult` that `contactInsert` reads. -/
structure EpaResult where
  id : Int
  contactA : Vector3
  contactB : Vector3
  normal : Vector3
  penetration : Scalar
deriving DecidableEq

/-- The helpers `vector3Perp`, `vector3Normalize` and `vector3Cross` called by
`contactInsert`, taken as given functions from their inputs to the vector they
write through their output pointer. -/
structure Vector3Ops where
  vector3Perp : Vector3 → Vector3
  vector3Normalize : Vector3 → Vector3
  vector3Cross : Vector3 → Vector3 → Vector3

/-- The ways the embedding can fail to produce a manifold. -/
inductive Fault where
  | indexOutOfRange
  | fuelExhausted
deriving DecidableEq

/-- The local variables of `contactInsert` that the scan loop updates. -/
structure ScanState where
  insertIndex : Nat
  shouldReplace : Bool
  replacementIndex : Nat
  smallestOverlap : Scalar
deriving DecidableEq

/-- Lines 6-8 and the loop initialiser of line 12. -/
def scanInit : ScanState :=
  { insertIndex := 0, shouldReplace := true, replacementIndex := 0, smallestOverlap := -10000 }

/-- The condition of line 32: the stored id has every bit of the candidate's id
and is numerically greater. -/
def coversCandidate (contactPoint : ContactPoint) (epaResult : EpaResult) : Bool :=
  decide (Int.land contactPoint.id epaResult.id = epaResult.id ∧ contactPoint.id > epaResult.id)

/-- Lines 24-34 and the `++insertIndex` of line 12: one pass of the loop body
over a point whose id differs from the candidate's. -/
def scanStep (contactPoint : ContactPoint) (epaResult : EpaResult) (s : ScanState) : ScanState :=
  let s1 : ScanState :=
    if contactPoint.penetration > s.smallestOverlap then
      { s with replacementIndex := s.insertIndex, smallestOverlap := contactPoint.penetration }
    else s
  let s2 : ScanState :=
    if coversCandidate contactPoint epaResult then { s1 with shouldReplace := false } else s1
  { s2 with insertIndex := s2.insertIndex + 1 }

/-- The `for` loop of lines 12-35. The first argument bounds the number of
passes; a loop that would still run when it reaches zero is `fuelExhausted`. -/
def scanLoop (MAX_CONTACT_COUNT : Nat) (contactState : ContactManifold) (epaResult : EpaResult) :
    Nat → ScanState → Except Fault ScanState
  | 0, s =>
    if (s.insertIndex : Int) < contactState.contactCount ∧ s.insertIndex < MAX_CONTACT_COUNT then
      .error .fuelExhausted
    else .ok s
  | fuel + 1, s =>
    if (s.insertIndex : Int) < contactState.contactCount ∧ s.insertIndex < MAX_CONTACT_COUNT then
      match contactState.contacts[s.insertIndex]? with
      | none => .error .indexOutOfRange
      | some contactPoint =>
        if contactPoint.id = epaResult.id then .ok s
        else scanLoop MAX_CONTACT_COUNT contactState epaResult fuel (scanStep contactPoint epaResult s)
    else .ok s

/-- Lines 37-42: the first insertion into an empty manifold sets the normal and
the tangent basis. -/
def setBasis (ops : Vector3Ops) (contactState : ContactManifold) (epaResult : EpaResult) :
    ContactManifold :=
  if contactState.contactCount = 0 then
    let normal := epaResult.normal
    let t0 := ops.vector3Normalize (ops.vector3Perp normal)
    { contactState with
      normal := normal, tangentVectors0 := t0, tangentVectors1 := ops.vector3Cross normal t0 }
  else contactState

/-- Lines 66-72: the seven solver fields set to `0.0f`. -/
def clearWarmStart (contactPoint : ContactPoint) : ContactPoint :=
  { contactPoint with
    normalImpulse := 0, tangentImpulse0 := 0, tangentImpulse1 := 0, bias := 0,
    normalMass := 0, tangentMass0 := 0, tangentMass1 := 0 }

/-- Lines 56-59: the candidate copied into a slot. -/
def storeCandidate (contactPoint : ContactPoint) (epaResult : EpaResult) : ContactPoint :=
  { contactPoint with
    id := epaResult.id, contactALocal := epaResult.contactA,
    contactBLocal := epaResult.contactB, penetration := epaResult.penetration }

/-- Lines 54-73: write the candidate to slot `insertIndex`, bump `contactCount`
when that slot is the first free one, clear the solver fields when
`shouldReplace` is still set. -/
def writeContact (contactState : ContactManifold) (epaResult : EpaResult)
    (insertIndex : Nat) (shouldReplace : Bool) : Except Fault ContactManifold :=
  match contactState.contacts[insertIndex]? with
  | none => .error .indexOutOfRange
  | some contactPoint =>
    let written := storeCandidate contactPoint epaResult
    let contactCount : Int :=
      if (insertIndex : Int) = contactState.contactCount then (insertIndex : Int) + 1
      else contactState.contactCount
    let final := if shouldReplace then clearWarmStart written else written
    .ok { contactState with
          contacts := contactState.contacts.set insertIndex final, contactCount := contactCount }

/-- The routine `contactInsert` of `contact_insertion.c`: the scan (lines 12-35),
the basis of an empty manifold (lines 37-42), the choice of the slot (lines
44-52: a full scan without a match either returns or replaces at
`replacementIndex` with `shouldReplace` still set; any other scan writes at
`insertIndex` with `shouldReplace` cleared), and the write (lines 54-73). -/
def contactInsert (MAX_CONTACT_COUNT : Nat) (ops : Vector3Ops) (contactState : ContactManifold)
    (epaResult : EpaResult) : Except Fault ContactManifold :=
  match scanLoop MAX_CONTACT_COUNT contactState epaResult MAX_CONTACT_COUNT scanInit with
  | .error f => .error f
  | .ok s =>
    let withBasis := setBasis ops contactState epaResult
    if s.insertIndex = MAX_CONTACT_COUNT then
      if !s.shouldReplace then .ok withBasis
      else writeContact withBasis epaResult s.replacementIndex true
    else writeContact withBasis epaResult s.insertIndex false

/-- Successive calls of `contactInsert` on one manifold, one per candidate of
the list, in order. It is not a routine of the source: it states what a
sequence of calls does. -/
def contactInsertAll (MAX_CONTACT_COUNT : Nat) (ops : Vector3Ops) (contactState : ContactManifold) :
    List EpaResult → Except Fault ContactManifold
  | [] => .ok contactState
  | epaResult :: rest =>
    match contactInsert MAX_CONTACT_COUNT ops contactState epaResult with
    | .error f => .error f
    | .ok next => contactInsertAll MAX_CONTACT_COUNT ops next rest

/-! ## Specification vocabulary -/

/-- The stored points of a manifold: the slots at indices below `contactCount`. -/
def storedPoints (contactState : ContactManifold) : List ContactPoint :=
  contactState.contacts.take contactState.contactCount.toNat

/-- What the scan loop guarantees about the state it stops in, relative to
the state it was started in. -/
structure ScanPost (MAX : Nat) (m : ContactManifold) (e : EpaResult) (s s' : ScanState) : Prop where
  le : s.insertIndex ≤ s'.insertIndex
  leMax : s'.insertIndex ≤ MAX
  within : s'.insertIndex = s.insertIndex ∨ (s'.insertIndex : Int) ≤ m.contactCount
  noMatch : ∀ j p, s.insertIndex ≤ j → j < s'.insertIndex → m.contacts[j]? = some p → p.id ≠ e.id
  stop : (∃ p, m.contacts[s'.insertIndex]? = some p ∧ p.id = e.id ∧
            (s'.insertIndex : Int) < m.contactCount ∧ s'.insertIndex < MAX) ∨
          ¬ ((s'.insertIndex : Int) < m.contactCount ∧ s'.insertIndex < MAX)
  flag : s'.shouldReplace = true ↔ (s.shouldReplace = true ∧
          ∀ j p, s.insertIndex ≤ j → j < s'.insertIndex → m.contacts[j]? = some p →
            coversCandidate p e = false)
  overlapLe : s.smallestOverlap ≤ s'.smallestOverlap
  overlapMax : ∀ j p, s.insertIndex ≤ j → j < s'.insertIndex → m.contacts[j]? = some p →
          p.penetration ≤ s'.smallestOverlap
  pick : (s'.replacementIndex = s.replacementIndex ∧ s'.smallestOverlap = s.smallestOverlap) ∨
          (s.insertIndex ≤ s'.replacementIndex ∧ s'.replacementIndex < s'.insertIndex ∧
            s.smallestOverlap < s'.smallestOverlap ∧
            (∃ p, m.contacts[s'.replacementIndex]? = some p ∧ p.penetration = s'.smallestOverlap) ∧
            ∀ j p, s.insertIndex ≤ j → j < s'.replacementIndex → m.contacts[j]? = some p →
              p.penetration < s'.smallestOverlap)

/-- The four ways a call of `contactInsert` on a manifold with
`MAX_CONTACT_COUNT` slots ends, each with the manifold it returns. -/
inductive Outcome (MAX : Nat) (ops : Vector3Ops) (m : ContactManifold) (e : EpaResult) :
    Except Fault ContactManifold → Prop
  | update (i : Nat) (p : ContactPoint) (hcc : (i : Int) < m.contactCount) (hi : i < MAX)
      (hp : m.contacts[i]? = some p) (hid : p.id = e.id)
      (hfirst : ∀ j q, j < i → m.contacts[j]? = some q → q.id ≠ e.id) :
      Outcome MAX ops m e (.ok { m with contacts := m.contacts.set i (storeCandidate p e) })
  | append (n : Nat) (p : ContactPoint) (hn : n < MAX) (hcc : m.contactCount ≤ (n : Int))
      (hwithin : n = 0 ∨ (n : Int) ≤ m.contactCount)
      (hno : ∀ j q, j < n → m.contacts[j]? = some q → q.id ≠ e.id)
      (hp : m.contacts[n]? = some p) :
      Outcome MAX ops m e (.ok { setBasis ops m e with
        contacts := m.contacts.set n (storeCandidate p e),
        contactCount := if (n : Int) = m.contactCount then (n : Int) + 1 else m.contactCount })
  | drop (hfull : (MAX : Int) ≤ m.contactCount)
      (hno : ∀ j q, j < MAX → m.contacts[j]? = some q → q.id ≠ e.id)
      (j : Nat) (q : ContactPoint) (hj : j < MAX) (hq : m.contacts[j]? = some q)
      (hcov : coversCandidate q e = true) :
      Outcome MAX ops m e (.ok m)
  | replace (hfull : (MAX : Int) ≤ m.contactCount)
      (hno : ∀ j q, j < MAX → m.contacts[j]? = some q → q.id ≠ e.id)
      (hnocov : ∀ j q, j < MAX → m.contacts[j]? = some q → coversCandidate q e = false)
      (r : Nat) (p : ContactPoint) (hr : r < MAX) (hp : m.contacts[r]? = some p)
      (hpick : (r = 0 ∧ ∀ j q, j < MAX → m.contacts[j]? = some q → q.penetration ≤ -10000) ∨
        (-10000 < p.penetration ∧
          (∀ j q, j < MAX → m.contacts[j]? = some q → q.penetration ≤ p.penetration) ∧
          ∀ j q, j < r → m.contacts[j]? = some q → q.penetration < p.penetration)) :
      Outcome MAX ops m e
        (.ok { m with contacts := m.contacts.set r (clearWarmStart (storeCandidate p e)) })

/-- The point holds the candidate's id, both positions and penetration. -/
abbrev holdsCandidate (contactPoint : ContactPoint) (epaResult : EpaResult) : Prop :=
  contactPoint.id = epaResult.id ∧ contactPoint.contactALocal = epaResult.contactA ∧
    contactPoint.contactBLocal = epaResult.contactB ∧
    contactPoint.penetration = epaResult.penetration

/-- The seven solver fields of the point are zero. -/
abbrev warmStartZero (contactPoint : ContactPoint) : Prop :=
  contactPoint.normalImpulse = 0 ∧ contactPoint.tangentImpulse0 = 0 ∧
    contactPoint.tangentImpulse1 = 0 ∧ contactPoint.bias = 0 ∧ contactPoint.normalMass = 0 ∧
    contactPoint.tangentMass0 = 0 ∧ contactPoint.tangentMass1 = 0

/-- The two points agree on the seven solver fields. -/
abbrev sameWarmStart (a b : ContactPoint) : Prop :=
  a.normalImpulse = b.normalImpulse ∧ a.tangentImpulse0 = b.tangentImpulse0 ∧
    a.tangentImpulse1 = b.tangentImpulse1 ∧ a.bias = b.bias ∧ a.normalMass = b.normalMass ∧
    a.tangentMass0 = b.tangentMass0 ∧ a.tangentMass1 = b.tangentMass1

/-- The replacement index in the words of C15: the smallest index whose
penetration is greater than `-10000` and not smaller than any penetration of
the array, and `0` when there is no such index. -/
def exactReplacementIndex (contacts : List ContactPoint) : Nat :=
  (contacts.findIdx? (fun p =>
    decide (-10000 < p.penetration ∧ ∀ q ∈ contacts, q.penetration ≤ p.penetration))).getD 0

/-! ## Sample inputs -/

/-- Stand-ins for the three vector helpers, used to run the routine on sample
inputs (the normalisation is left out: it needs a square root). -/
def sampleOps : Vector3Ops where
  vector3Perp := fun v => ⟨-v.y, v.x, 0⟩
  vector3Normalize := fun v => v
  vector3Cross := fun a b => ⟨a.y * b.z - a.z * b.y, a.z * b.x - a.x * b.z, a.x * b.y - a.y * b.x⟩

/-- The vector `(x, 0, 0)`. -/
def alongX (x : Scalar) : Vector3 := ⟨x, 0, 0⟩

/-- A stored point with the given id, penetration and normal impulse, sitting at
`(1, 0, 0)` and `(2, 0, 0)`, with the other solver fields set to `1 .. 6`. -/
def samplePoint (id : Int) (penetration normalImpulse : Scalar) : ContactPoint :=
  { id := id, contactALocal := alongX 1, contactBLocal := alongX 2, penetration := penetration,
    normalImpulse := normalImpulse, tangentImpulse0 := 1, tangentImpulse1 := 2, bias := 3,
    normalMass := 4, tangentMass0 := 5, tangentMass1 := 6 }

/-- A candidate with the given id and penetration, at `(7, 0, 0)` and
`(8, 0, 0)`, with normal `(0, 0, 1)`. -/
def sampleCandidate (id : Int) (penetration : Scalar) : EpaResult :=
  { id := id, contactA := alongX 7, contactB := alongX 8, normal := ⟨0, 0, 1⟩,
    penetration := penetration }

/-- A manifold with the given slots and count, whose normal is `(0, 1, 0)`. -/
def sampleManifold (contacts : List ContactPoint) (contactCount : Int) : ContactManifold :=
  { contacts := contacts, contactCount := contactCount, normal := ⟨0, 1, 0⟩,
    tangentVectors0 := ⟨1, 0, 0⟩, tangentVectors1 := ⟨0, 0, 1⟩ }

/-- Two stored points, ids `1` and `2`, in a manifold of two slots. -/
def twoPointManifold : ContactManifold :=
  sampleManifold [samplePoint 1 3 10, samplePoint 2 4 20] 2

/-- An empty manifold of one slot whose slot still carries solver values. -/
def staleSlotManifold : ContactManifold :=
  sampleManifold [samplePoint 9 3 10] 0

/-- An empty manifold of `n` slots. -/
def emptyManifold (n : Nat) : ContactManifold :=
  sampleManifold (List.replicate n (samplePoint 0 0 0)) 0

/-- A full manifold of two slots whose penetrations, `-20000` and `-10000`, do
not exceed the initial `smallestOverlap` of the scan. -/
def deepManifold : ContactManifold :=
  sampleManifold [samplePoint 1 (-20000) 10, samplePoint 2 (-10000) 20] 2

/-- The four candidates with ids `1`, `2`, `4`, `8` and penetrations `5 .. 8`. -/
def fourCandidates : List EpaResult :=
  [sampleCandidate 1 5, sampleCandidate 2 6, sampleCandidate 4 7, sampleCandidate 8 8]

/-- The full manifold of four slots that holds `fourCandidates` in order, with
the basis of the first of them. -/
def fourPointManifold : ContactManifold :=
  { setBasis sampleOps (emptyManifold 4) (sampleCandidate 1 5) with
    contacts := [storeCandidate (samplePoint 0 0 0) (sampleCandidate 1 5),
      storeCandidate (samplePoint 0 0 0) (sampleCandidate 2 6),
      storeCandidate (samplePoint 0 0 0) (sampleCandidate 4 7),
      storeCandidate (samplePoint 0 0 0) (sampleCandidate 8 8)],
    contactCount := 4 }

/-- A full manifold of three slots, ids `1`, `2`, `4`, whose largest
penetration, `7`, is held by slots `1` and `2`. -/
def tiedManifold : ContactManifold :=
  sampleManifold [samplePoint 1 3 10, samplePoint 2 7 20, samplePoint 4 7 30] 3

/-! ## The scan loop -/

theorem scanStep_insertIndex (p : ContactPoint) (e : EpaResult) (s : ScanState) :
    (scanStep p e s).insertIndex = s.insertIndex + 1 := by
  unfold scanStep
  split_ifs <;> rfl

theorem scanStep_shouldReplace (p : ContactPoint) (e : EpaResult) (s : ScanState) :
    (scanStep p e s).shouldReplace = (s.shouldReplace && !coversCandidate p e) := by
  unfold scanStep
  split_ifs <;> simp [*]

theorem scanStep_smallestOverlap (p : ContactPoint) (e : EpaResult) (s : ScanState) :
    (scanStep p e s).smallestOverlap = max s.smallestOverlap p.penetration := by
  unfold scanStep
  split_ifs with h1 h2 h2 <;> simp at h1 ⊢
  · exact h1.le
  · exact h1.le
  · exact h1
  · exact h1

theorem scanStep_replacementIndex (p : ContactPoint) (e : EpaResult) (s : ScanState) :
    (scanStep p e s).replacementIndex =
      if p.penetration > s.smallestOverlap then s.insertIndex else s.replacementIndex := by
  unfold scanStep
  split_ifs <;> rfl

theorem scanPost_refl (MAX : Nat) (m : ContactManifold) (e : EpaResult) (s : ScanState)
    (hle : s.insertIndex ≤ MAX)
    (hstop : (∃ p, m.contacts[s.insertIndex]? = some p ∧ p.id = e.id ∧
            (s.insertIndex : Int) < m.contactCount ∧ s.insertIndex < MAX) ∨
          ¬ ((s.insertIndex : Int) < m.contactCount ∧ s.insertIndex < MAX)) :
    ScanPost MAX m e s s where
  le := le_refl _
  leMax := hle
  within := Or.inl rfl
  noMatch := fun j _ h1 h2 => absurd h1 (by omega)
  stop := hstop
  flag := ⟨fun h => ⟨h, fun j _ h1 h2 => absurd h1 (by omega)⟩, fun h => h.1⟩
  overlapLe := le_refl _
  overlapMax := fun j _ h1 h2 => absurd h1 (by omega)
  pick := Or.inl ⟨rfl, rfl⟩

theorem scanLoop_spec (MAX : Nat) (m : ContactManifold) (e : EpaResult)
    (hlen : m.contacts.length = MAX) :
    ∀ (fuel : Nat) (s : ScanState), s.insertIndex + fuel = MAX →
      ∃ s', scanLoop MAX m e fuel s = .ok s' ∧ ScanPost MAX m e s s' := by
  intro fuel
  induction fuel with
  | zero =>
    intro s hs
    have hnot : ¬ ((s.insertIndex : Int) < m.contactCount ∧ s.insertIndex < MAX) := by
      intro h; omega
    refine ⟨s, ?_, scanPost_refl MAX m e s (by omega) (Or.inr hnot)⟩
    simp only [scanLoop, if_neg hnot]
  | succ fuel ih =>
    intro s hs
    by_cases hc : (s.insertIndex : Int) < m.contactCount ∧ s.insertIndex < MAX
    · have hlt : s.insertIndex < m.contacts.length := by omega
      obtain ⟨p, hp⟩ : ∃ p, m.contacts[s.insertIndex]? = some p :=
        ⟨m.contacts[s.insertIndex], List.getElem?_eq_getElem hlt⟩
      by_cases hid : p.id = e.id
      · refine ⟨s, ?_, scanPost_refl MAX m e s (by omega) (Or.inl ⟨p, hp, hid, hc.1, hc.2⟩)⟩
        simp only [scanLoop, if_pos hc, hp, if_pos hid]
      · obtain ⟨s', hrun, post⟩ := ih (scanStep p e s) (by rw [scanStep_insertIndex]; omega)
        refine ⟨s', ?_, ?_⟩
        · simp only [scanLoop, if_pos hc, hp, if_neg hid]; exact hrun
        · have hidx := scanStep_insertIndex p e s
          have hov := scanStep_smallestOverlap p e s
          have hri := scanStep_replacementIndex p e s
          have hfl := scanStep_shouldReplace p e s
          obtain ⟨ple, pleMax, pwithin, pnoMatch, pstop, pflag, poverlapLe, poverlapMax, ppick⟩ := post
          rw [hidx] at ple pwithin pnoMatch pflag poverlapMax ppick
          refine ⟨by omega, pleMax, ?_, ?_, pstop, ?_, ?_, ?_, ?_⟩
          · rcases pwithin with h | h
            · right; rw [h]; push_cast; omega
            · exact Or.inr h
          · intro j q h1 h2 hq
            rcases Nat.eq_or_lt_of_le h1 with h | h
            · subst h; rw [hp] at hq; cases hq; exact hid
            · exact pnoMatch j q h h2 hq
          · rw [pflag, hfl]
            constructor
            · rintro ⟨h1, h2⟩
              simp only [Bool.and_eq_true, Bool.not_eq_true'] at h1
              refine ⟨h1.1, fun j q hj1 hj2 hq => ?_⟩
              rcases Nat.eq_or_lt_of_le hj1 with h | h
              · subst h; rw [hp] at hq; cases hq; exact h1.2
              · exact h2 j q h hj2 hq
            · rintro ⟨h1, h2⟩
              refine ⟨?_, fun j q hj1 hj2 hq => h2 j q (by omega) hj2 hq⟩
              simp only [Bool.and_eq_true, Bool.not_eq_true']
              exact ⟨h1, h2 _ p (le_refl _) (by omega) hp⟩
          · rw [hov] at poverlapLe
            exact le_trans (le_max_left _ _) poverlapLe
          · intro j q h1 h2 hq
            rcases Nat.eq_or_lt_of_le h1 with h | h
            · subst h; rw [hp] at hq; cases hq
              rw [hov] at poverlapLe
              exact le_trans (le_max_right _ _) poverlapLe
            · exact poverlapMax j q h h2 hq
          · rw [hov, hri] at ppick
            rcases ppick with ⟨h1, h2⟩ | ⟨h1, h2, h3, h4, h5⟩
            · by_cases hgt : p.penetration > s.smallestOverlap
              · right
                rw [if_pos hgt] at h1
                rw [max_eq_right hgt.le] at h2
                refine ⟨by omega, by omega, by rw [h2]; exact hgt, ⟨p, by rw [h1]; exact hp, h2.symm⟩, ?_⟩
                intro j q hj1 hj2 _
                omega
              · left
                rw [if_neg hgt] at h1
                rw [max_eq_left (not_lt.mp hgt)] at h2
                exact ⟨h1, h2⟩
            · right
              refine ⟨by omega, h2, lt_of_le_of_lt (le_max_left _ _) h3, h4, ?_⟩
              intro j q hj1 hj2 hq
              rcases Nat.eq_or_lt_of_le hj1 with h | h
              · subst h; rw [hp] at hq; cases hq
                exact lt_of_le_of_lt (le_max_right _ _) h3
              · exact h5 j q h hj2 hq
    · refine ⟨s, ?_, scanPost_refl MAX m e s (by omega) (Or.inr hc)⟩
      simp only [scanLoop, if_neg hc]

/-! ## The four outcomes of a call -/

theorem setBasis_contacts (ops : Vector3Ops) (m : ContactManifold) (e : EpaResult) :
    (setBasis ops m e).contacts = m.contacts := by
  unfold setBasis; split_ifs <;> rfl

theorem setBasis_contactCount (ops : Vector3Ops) (m : ContactManifold) (e : EpaResult) :
    (setBasis ops m e).contactCount = m.contactCount := by
  unfold setBasis; split_ifs <;> rfl

theorem setBasis_of_ne (ops : Vector3Ops) (m : ContactManifold) (e : EpaResult)
    (h : m.contactCount ≠ 0) : setBasis ops m e = m := by
  unfold setBasis; rw [if_neg h]

theorem writeContact_of_slot (m : ContactManifold) (e : EpaResult) (i : Nat) (b : Bool)
    (p : ContactPoint) (hp : m.contacts[i]? = some p) :
    writeContact m e i b = .ok { m with
      contacts := m.contacts.set i (if b then clearWarmStart (storeCandidate p e) else storeCandidate p e),
      contactCount := if (i : Int) = m.contactCount then (i : Int) + 1 else m.contactCount } := by
  simp only [writeContact, hp]

theorem contactInsert_outcome (MAX : Nat) (ops : Vector3Ops) (m : ContactManifold) (e : EpaResult)
    (hlen : m.contacts.length = MAX) (hpos : 1 ≤ MAX) :
    Outcome MAX ops m e (contactInsert MAX ops m e) := by
  obtain ⟨s, hrun, post⟩ := scanLoop_spec MAX m e hlen MAX scanInit (by simp [scanInit])
  obtain ⟨-, pleMax, pwithin, pnoMatch, pstop, pflag, -, poverlapMax, ppick⟩ := post
  simp only [scanInit, Nat.zero_le, true_implies, true_and] at pwithin pnoMatch pflag poverlapMax ppick
  have hslot : ∀ i, i < MAX → ∃ p, m.contacts[i]? = some p := fun i hi =>
    ⟨m.contacts[i], List.getElem?_eq_getElem (by omega)⟩
  unfold contactInsert
  rw [hrun]
  simp only
  rcases pstop with ⟨p, hp, hid, hcc, hi⟩ | hstop
  · -- the scan stopped on a point with the candidate's id
    rw [if_neg (by omega), setBasis_of_ne ops m e (by omega), writeContact_of_slot m e _ false p hp]
    have hne : ¬ ((s.insertIndex : Int) = m.contactCount) := by omega
    simp only [if_neg hne, Bool.false_eq_true, if_false]
    exact Outcome.update s.insertIndex p hcc hi hp hid pnoMatch
  · by_cases hfull : s.insertIndex = MAX
    · have hccfull : (MAX : Int) ≤ m.contactCount := by
        rcases pwithin with h | h <;> omega
      rw [if_pos hfull, setBasis_of_ne ops m e (by omega)]
      rw [hfull] at pnoMatch pflag poverlapMax ppick
      by_cases hsr : s.shouldReplace = true
      · have hnocov := (pflag.mp hsr)
        have hr : s.replacementIndex < MAX := by
          rcases ppick with ⟨h, -⟩ | ⟨h, -⟩ <;> omega
        obtain ⟨p, hp⟩ := hslot _ hr
        rw [hsr, writeContact_of_slot m e _ true p hp]
        have hne : ¬ ((s.replacementIndex : Int) = m.contactCount) := by omega
        simp only [if_neg hne, if_true, Bool.not_true, Bool.false_eq_true, if_false]
        refine Outcome.replace hccfull pnoMatch hnocov s.replacementIndex p hr hp ?_
        rcases ppick with ⟨h1, h2⟩ | ⟨h1, h2, ⟨q, hq, hqe⟩, h4⟩
        · left
          refine ⟨h1, fun j q hj hq => ?_⟩
          rw [← h2]; exact poverlapMax j q hj hq
        · right
          rw [hp] at hq; cases hq
          refine ⟨by rw [hqe]; exact h2, fun j q hj hq => ?_, fun j q hj hq => ?_⟩
          · rw [hqe]; exact poverlapMax j q hj hq
          · rw [hqe]; exact h4 j q hj hq
      · have hsr' : s.shouldReplace = false := by simpa using hsr
        rw [hsr']
        simp only [Bool.not_false, if_true]
        have : ¬ ∀ j q, j < MAX → m.contacts[j]? = some q → coversCandidate q e = false :=
          fun h => hsr (pflag.mpr h)
        push_neg at this
        obtain ⟨j, q, hj, hq, hcov⟩ := this
        exact Outcome.drop hccfull pnoMatch j q hj hq (by simpa using hcov)
    · have hn : s.insertIndex < MAX := by omega
      obtain ⟨p, hp⟩ := hslot _ hn
      have hp' : (setBasis ops m e).contacts[s.insertIndex]? = some p := by
        rw [setBasis_contacts]; exact hp
      rw [if_neg hfull, writeContact_of_slot _ e _ false p hp']
      simp only [Bool.false_eq_true, if_false, setBasis_contacts, setBasis_contactCount]
      exact Outcome.append s.insertIndex p hn (by omega) pwithin pnoMatch hp

theorem mem_storedPoints_iff (m : ContactManifold) (p : ContactPoint) :
    p ∈ storedPoints m ↔ ∃ j : Nat, (j : Int) < m.contactCount ∧ m.contacts[j]? = some p := by
  unfold storedPoints
  rw [List.mem_iff_getElem?]
  constructor
  · rintro ⟨j, hj⟩
    rw [List.getElem?_take] at hj
    split_ifs at hj with h
    exact ⟨j, by omega, hj⟩
  · rintro ⟨j, hj, hp⟩
    refine ⟨j, ?_⟩
    rw [List.getElem?_take, if_pos (by omega)]
    exact hp

theorem mem_take_iff_index (l : List ContactPoint) (n : Nat) (p : ContactPoint) :
    p ∈ l.take n ↔ ∃ j : Nat, j < n ∧ l[j]? = some p := by
  rw [List.mem_iff_getElem?]
  constructor
  · rintro ⟨j, hj⟩
    rw [List.getElem?_take] at hj
    split_ifs at hj with h
    exact ⟨j, h, hj⟩
  · rintro ⟨j, hj, hp⟩
    exact ⟨j, by rw [List.getElem?_take, if_pos hj]; exact hp⟩

/-- A call that finds the candidate's id first at slot `i` overwrites the
identity and geometry of that slot and nothing else. -/
theorem contactInsert_of_first_match (MAX : Nat) (ops : Vector3Ops) (m : ContactManifold)
    (e : EpaResult) (i : Nat) (p : ContactPoint)
    (hlen : m.contacts.length = MAX) (hcc : (i : Int) < m.contactCount)
    (hp : m.contacts[i]? = some p) (hid : p.id = e.id)
    (hfirst : ∀ j q, j < i → m.contacts[j]? = some q → q.id ≠ e.id) :
    contactInsert MAX ops m e = .ok { m with contacts := m.contacts.set i (storeCandidate p e) } := by
  have hi : i < MAX := by
    obtain ⟨h, -⟩ := List.getElem?_eq_some.mp hp
    omega
  have hout := contactInsert_outcome MAX ops m e hlen (by omega)
  generalize contactInsert MAX ops m e = res at hout
  cases hout with
  | update i' p' hcc' hi' hp' hid' hfirst' =>
    have : i' = i := by
      rcases Nat.lt_trichotomy i' i with h | h | h
      · exact absurd hid' (hfirst i' p' h hp')
      · exact h
      · exact absurd hid (hfirst' i p h hp)
    subst this
    rw [hp] at hp'; cases hp'
    rfl
  | append n p' hn hcc' hwithin hno hp' => exact absurd hid (hno i p (by omega) hp)
  | drop hfull hno j q hj hq hcov => exact absurd hid (hno i p hi hp)
  | replace hfull hno hnocov r p' hr hp' hpick => exact absurd hid (hno i p hi hp)

/-! ## Evaluation of a call, case by case -/

theorem index_lt_of_stored (m : ContactManifold) (P : ContactPoint → Prop)
    (h : ∀ p ∈ storedPoints m, P p) :
    ∀ (j : Nat) q, (j : Int) < m.contactCount → m.contacts[j]? = some q → P q :=
  fun j q hj hq => h q ((mem_storedPoints_iff m q).mpr ⟨j, hj, hq⟩)

/-- A call on a manifold that is not full and stores no point with the
candidate's id writes the candidate to slot `contactCount` and counts it. -/
theorem contactInsert_of_append (MAX : Nat) (ops : Vector3Ops) (m : ContactManifold)
    (e : EpaResult) (hlen : m.contacts.length = MAX)
    (h0 : 0 ≤ m.contactCount) (hlt : m.contactCount < MAX)
    (hno : ∀ p ∈ storedPoints m, p.id ≠ e.id) :
    ∃ p, m.contacts[m.contactCount.toNat]? = some p ∧
      contactInsert MAX ops m e = .ok { setBasis ops m e with
        contacts := m.contacts.set m.contactCount.toNat (storeCandidate p e),
        contactCount := m.contactCount + 1 } := by
  have hno' := index_lt_of_stored m (fun p => p.id ≠ e.id) hno
  have hout := contactInsert_outcome MAX ops m e hlen (by omega)
  generalize contactInsert MAX ops m e = res at hout
  cases hout with
  | update i p hcc hi hp hid hfirst => exact absurd hid (hno' i p hcc hp)
  | append n p hn hcc hwithin hno2 hp =>
    have hn' : (n : Int) = m.contactCount := by omega
    have hn2 : m.contactCount.toNat = n := by omega
    rw [hn2]
    refine ⟨p, hp, ?_⟩
    rw [if_pos hn', hn']
  | drop hfull hno2 j q hj hq hcov => omega
  | replace hfull hno2 hnocov r p hr hp hpick => omega

/-- A call on a full manifold that stores no point with the candidate's id and
no point covering it overwrites one slot with the candidate and clears the
solver fields of that slot. -/
theorem contactInsert_of_replace (MAX : Nat) (ops : Vector3Ops) (m : ContactManifold)
    (e : EpaResult) (hlen : m.contacts.length = MAX) (hpos : 1 ≤ MAX)
    (hfull : m.contactCount = MAX)
    (hno : ∀ p ∈ storedPoints m, p.id ≠ e.id)
    (hnocov : ∀ p ∈ storedPoints m, coversCandidate p e = false) :
    ∃ r p, r < MAX ∧ m.contacts[r]? = some p ∧
      ((r = 0 ∧ ∀ q ∈ m.contacts, q.penetration ≤ -10000) ∨
        (-10000 < p.penetration ∧ (∀ q ∈ m.contacts, q.penetration ≤ p.penetration) ∧
          ∀ q ∈ m.contacts.take r, q.penetration < p.penetration)) ∧
      contactInsert MAX ops m e =
        .ok { m with contacts := m.contacts.set r (clearWarmStart (storeCandidate p e)) } := by
  have hno' := index_lt_of_stored m (fun p => p.id ≠ e.id) hno
  have hnocov' := index_lt_of_stored m (fun p => coversCandidate p e = false) hnocov
  have hout := contactInsert_outcome MAX ops m e hlen hpos
  generalize contactInsert MAX ops m e = res at hout
  cases hout with
  | update i p hcc hi hp hid hfirst => exact absurd hid (hno' i p hcc hp)
  | append n p hn hcc hwithin hno2 hp => omega
  | drop hfull2 hno2 j q hj hq hcov =>
    have : coversCandidate q e = false := hnocov' j q (by omega) hq
    rw [hcov] at this; cases this
  | replace hfull2 hno2 hnocov2 r p hr hp hpick =>
    have hidx : ∀ q ∈ m.contacts, ∃ j, j < MAX ∧ m.contacts[j]? = some q := by
      intro q hq
      obtain ⟨j, hj⟩ := List.mem_iff_getElem?.mp hq
      obtain ⟨h, -⟩ := List.getElem?_eq_some.mp hj
      exact ⟨j, by omega, hj⟩
    refine ⟨r, p, hr, hp, ?_, rfl⟩
    rcases hpick with ⟨h1, h2⟩ | ⟨h1, h2, h3⟩
    · left
      refine ⟨h1, fun q hq => ?_⟩
      obtain ⟨j, hj, hjq⟩ := hidx q hq
      exact h2 j q hj hjq
    · right
      refine ⟨h1, fun q hq => ?_, fun q hq => ?_⟩
      · obtain ⟨j, hj, hjq⟩ := hidx q hq
        exact h2 j q hj hjq
      · obtain ⟨j, hj, hjq⟩ := (mem_take_iff_index _ _ _).mp hq
        exact h3 j q hj hjq

/-- A call on a full manifold that stores no point with the candidate's id but
a point covering it returns the manifold as it was. -/
theorem contactInsert_of_drop (MAX : Nat) (ops : Vector3Ops) (m : ContactManifold)
    (e : EpaResult) (hlen : m.contacts.length = MAX) (hpos : 1 ≤ MAX)
    (hfull : m.contactCount = MAX)
    (hno : ∀ p ∈ storedPoints m, p.id ≠ e.id)
    (hcov : ∃ p ∈ storedPoints m, coversCandidate p e = true) :
    contactInsert MAX ops m e = .ok m := by
  have hno' := index_lt_of_stored m (fun p => p.id ≠ e.id) hno
  have hout := contactInsert_outcome MAX ops m e hlen hpos
  generalize contactInsert MAX ops m e = res at hout
  cases hout with
  | update i p hcc hi hp hid hfirst => exact absurd hid (hno' i p hcc hp)
  | append n p hn hcc hwithin hno2 hp => omega
  | drop hfull2 hno2 j q hj hq hcov2 => rfl
  | replace hfull2 hno2 hnocov2 r p hr hp hpick =>
    obtain ⟨q, hq, hqc⟩ := hcov
    obtain ⟨j, hj, hjq⟩ := (mem_storedPoints_iff m q).mp hq
    have := hnocov2 j q (by omega) hjq
    rw [hqc] at this; cases this

theorem coversCandidate_eq_false_iff (p : ContactPoint) (e : EpaResult) :
    coversCandidate p e = false ↔ ¬ (Int.land p.id e.id = e.id ∧ p.id > e.id) := by
  unfold coversCandidate
  simp only [decide_eq_false_iff_not]

theorem coversCandidate_eq_true_iff (p : ContactPoint) (e : EpaResult) :
    coversCandidate p e = true ↔ (Int.land p.id e.id = e.id ∧ p.id > e.id) := by
  unfold coversCandidate
  simp only [decide_eq_true_eq]

theorem slot_of_lt (l : List ContactPoint) (i : Nat) (h : i < l.length) :
    ∃ p, l[i]? = some p :=
  ⟨l[i], List.getElem?_eq_getElem h⟩

/-- One call keeps the number of slots and keeps `contactCount` within
`0 .. MAX`. -/
theorem contactInsert_keeps_range (MAX : Nat) (ops : Vector3Ops) (m : ContactManifold)
    (e : EpaResult) (hlen : m.contacts.length = MAX) (hpos : 1 ≤ MAX)
    (h0 : 0 ≤ m.contactCount) (hmax : m.contactCount ≤ MAX) :
    ∃ m', contactInsert MAX ops m e = .ok m' ∧ m'.contacts.length = MAX ∧
      0 ≤ m'.contactCount ∧ m'.contactCount ≤ MAX := by
  have hout := contactInsert_outcome MAX ops m e hlen hpos
  generalize contactInsert MAX ops m e = res at hout
  cases hout with
  | update i p hcc hi hp hid hfirst =>
    exact ⟨_, rfl, by simp only [List.length_set]; exact hlen, h0, hmax⟩
  | append n p hn hcc hwithin hno hp =>
    refine ⟨_, rfl, by simp only [List.length_set]; exact hlen, ?_, ?_⟩
    · show 0 ≤ (if (n : Int) = m.contactCount then (n : Int) + 1 else m.contactCount)
      split_ifs <;> omega
    · show (if (n : Int) = m.contactCount then (n : Int) + 1 else m.contactCount) ≤ MAX
      split_ifs <;> omega
  | drop hfull hno j q hj hq hcov => exact ⟨_, rfl, hlen, h0, hmax⟩
  | replace hfull hno hnocov r p hr hp hpick =>
    exact ⟨_, rfl, by simp only [List.length_set]; exact hlen, h0, hmax⟩

/-- Any sequence of calls keeps the number of slots and keeps `contactCount`
within `0 .. MAX`. -/
theorem contactInsertAll_keeps_range (MAX : Nat) (ops : Vector3Ops) (hpos : 1 ≤ MAX)
    (es : List EpaResult) :
    ∀ m : ContactManifold, m.contacts.length = MAX → 0 ≤ m.contactCount →
      m.contactCount ≤ MAX →
      ∃ m', contactInsertAll MAX ops m es = .ok m' ∧ m'.contacts.length = MAX ∧
        0 ≤ m'.contactCount ∧ m'.contactCount ≤ MAX := by
  induction es with
  | nil => intro m hlen h0 hmax; exact ⟨m, rfl, hlen, h0, hmax⟩
  | cons e rest ih =>
    intro m hlen h0 hmax
    obtain ⟨m1, h1, hlen1, h01, hmax1⟩ := contactInsert_keeps_range MAX ops m e hlen hpos h0 hmax
    obtain ⟨m2, h2, hrest⟩ := ih m1 hlen1 h01 hmax1
    refine ⟨m2, ?_, hrest⟩
    simp only [contactInsertAll, h1]
    exact h2

/-- The ids of the stored points are pairwise distinct exactly when no two
slots below `contactCount` hold the same id. -/
theorem nodup_stored_ids_iff (m : ContactManifold) :
    ((storedPoints m).map ContactPoint.id).Nodup ↔
      ∀ (i j : Nat) (p q : ContactPoint), i < j → (j : Int) < m.contactCount →
        m.contacts[i]? = some p → m.contacts[j]? = some q → p.id ≠ q.id := by
  rw [List.nodup_iff_getElem?_ne_getElem?]
  unfold storedPoints
  simp only [List.length_map, List.length_take, List.getElem?_map, List.getElem?_take]
  constructor
  · intro h i j p q hij hj hp hq hpq
    have hj' : j < m.contactCount.toNat := by omega
    have hi' : i < m.contactCount.toNat := by omega
    apply h i j hij (by
      obtain ⟨hjl, -⟩ := List.getElem?_eq_some.mp hq
      exact lt_min hj' hjl)
    rw [if_pos hi', if_pos hj', hp, hq]
    simp only [Option.map_some', hpq]
  · intro h i j hij hj
    have hj1 : j < m.contactCount.toNat := lt_of_lt_of_le hj (min_le_left _ _)
    have hj2 : j < m.contacts.length := lt_of_lt_of_le hj (min_le_right _ _)
    have hi1 : i < m.contactCount.toNat := by omega
    obtain ⟨p, hp⟩ := slot_of_lt m.contacts i (by omega)
    obtain ⟨q, hq⟩ := slot_of_lt m.contacts j hj2
    rw [if_pos hi1, if_pos hj1, hp, hq]
    simp only [Option.map_some', ne_eq, Option.some.injEq]
    exact h i j p q hij (by omega) hp hq

/-- One call keeps the ids of the stored points pairwise distinct. -/
theorem contactInsert_keeps_distinct (MAX : Nat) (ops : Vector3Ops) (m : ContactManifold)
    (e : EpaResult) (hlen : m.contacts.length = MAX) (hpos : 1 ≤ MAX)
    (h0 : 0 ≤ m.contactCount) (hmax : m.contactCount ≤ MAX)
    (hnodup : ((storedPoints m).map ContactPoint.id).Nodup) :
    ∃ m', contactInsert MAX ops m e = .ok m' ∧ m'.contacts.length = MAX ∧
      0 ≤ m'.contactCount ∧ m'.contactCount ≤ MAX ∧
      ((storedPoints m').map ContactPoint.id).Nodup := by
  obtain ⟨m', hres, hlen', h0', hmax'⟩ := contactInsert_keeps_range MAX ops m e hlen hpos h0 hmax
  refine ⟨m', hres, hlen', h0', hmax', ?_⟩
  rw [nodup_stored_ids_iff m] at hnodup
  rw [nodup_stored_ids_iff m']
  have hout := contactInsert_outcome MAX ops m e hlen hpos
  rw [hres] at hout
  generalize hgen : (Except.ok m' : Except Fault ContactManifold) = res at hout
  cases hout with
  | update i0 p0 hcc hi hp hid hfirst =>
    cases hgen
    -- every slot keeps its id
    have keep : ∀ (j : Nat) (q' : ContactPoint),
        (m.contacts.set i0 (storeCandidate p0 e))[j]? = some q' →
        ∃ q, m.contacts[j]? = some q ∧ q.id = q'.id := by
      intro j q' hq'
      rw [List.getElem?_set] at hq'
      split_ifs at hq' with h1 h2
      · subst h1; cases hq'; exact ⟨p0, hp, hid⟩
      · exact ⟨q', hq', rfl⟩
    intro i j p q hij hj hp' hq'
    obtain ⟨p1, hp1, hpe⟩ := keep i p hp'
    obtain ⟨q1, hq1, hqe⟩ := keep j q hq'
    rw [← hpe, ← hqe]
    exact hnodup i j p1 q1 hij hj hp1 hq1
  | append n p0 hn hcc hwithin hno hp =>
    cases hgen
    have hn' : (n : Int) = m.contactCount := by omega
    intro i j p q hij hj hp' hq'
    simp only [if_pos hn'] at hj
    simp only [List.getElem?_set] at hp' hq'
    have hin : ¬ n = i := by omega
    rw [if_neg hin] at hp'
    split_ifs at hq' with h1 h2
    · cases hq'
      exact hno i p (by omega) hp'
    · exact hnodup i j p q hij (by omega) hp' hq'
  | drop hfull hno j q hj hq hcov =>
    cases hgen
    exact hnodup
  | replace hfull hno hnocov r p0 hr hp hpick =>
    cases hgen
    intro i j p q hij hj hp' hq'
    have hjm : j < MAX := by
      have : (j : Int) < m.contactCount := hj
      omega
    simp only [List.getElem?_set] at hp' hq'
    split_ifs at hp' with h1 h2
    · cases hp'
      have hjr : ¬ r = j := by omega
      rw [if_neg hjr] at hq'
      exact fun h => hno j q hjm hq' h.symm
    · split_ifs at hq' with h3 h4
      · cases hq'
        exact hno i p (by omega) hp'
      · exact hnodup i j p q hij hj hp' hq'

/-- Any sequence of calls keeps the ids of the stored points pairwise distinct. -/
theorem contactInsertAll_keeps_distinct (MAX : Nat) (ops : Vector3Ops) (hpos : 1 ≤ MAX)
    (es : List EpaResult) :
    ∀ m : ContactManifold, m.contacts.length = MAX → 0 ≤ m.contactCount →
      m.contactCount ≤ MAX → ((storedPoints m).map ContactPoint.id).Nodup →
      ∃ m', contactInsertAll MAX ops m es = .ok m' ∧
        ((storedPoints m').map ContactPoint.id).Nodup := by
  induction es with
  | nil => intro m _ _ _ hnodup; exact ⟨m, rfl, hnodup⟩
  | cons e rest ih =>
    intro m hlen h0 hmax hnodup
    obtain ⟨m1, h1, hlen1, h01, hmax1, hnodup1⟩ :=
      contactInsert_keeps_distinct MAX ops m e hlen hpos h0 hmax hnodup
    obtain ⟨m2, h2, hrest⟩ := ih m1 hlen1 h01 hmax1 hnodup1
    refine ⟨m2, ?_, hrest⟩
    simp only [contactInsertAll, h1]
    exact h2

theorem storedPoints_of_full (m : ContactManifold) (h : m.contactCount = m.contacts.length) :
    storedPoints m = m.contacts := by
  unfold storedPoints
  rw [h, Int.toNat_ofNat, List.take_length]

/-- Candidates whose ids are pairwise distinct and differ from every stored id
are appended one after the other while there is room. -/
theorem contactInsertAll_appends (MAX : Nat) (ops : Vector3Ops) (es : List EpaResult) :
    ∀ (m : ContactManifold) (n : Nat), m.contacts.length = MAX → m.contactCount = n →
      n + es.length ≤ MAX → (es.map EpaResult.id).Nodup →
      (∀ c ∈ es, ∀ p ∈ storedPoints m, p.id ≠ c.id) →
      ∃ m' : ContactManifold, contactInsertAll MAX ops m es = .ok m' ∧
        m'.contactCount = ((n + es.length : Nat) : Int) ∧
        (∀ j, j < n → m'.contacts[j]? = m.contacts[j]?) ∧
        ∀ j c, es[j]? = some c → ∃ p, m'.contacts[n + j]? = some p ∧ holdsCandidate p c := by
  induction es with
  | nil =>
    intro m n _ hn _ _ _
    refine ⟨m, rfl, by simpa using hn, fun _ _ => rfl, ?_⟩
    intro j c hc
    simp at hc
  | cons e rest ih =>
    intro m n hlen hn hroom hnodup hfresh
    simp only [List.length_cons] at hroom
    simp only [List.map_cons, List.nodup_cons] at hnodup
    have hno : ∀ p ∈ storedPoints m, p.id ≠ e.id := hfresh e (List.mem_cons_self _ _)
    obtain ⟨p, hp, hres⟩ :=
      contactInsert_of_append MAX ops m e hlen (by omega) (by omega) hno
    have hnat : m.contactCount.toNat = n := by omega
    rw [hnat] at hp hres
    obtain ⟨m', hrun, hcount, hkeep, hrest⟩ := ih
      { setBasis ops m e with
        contacts := m.contacts.set n (storeCandidate p e), contactCount := m.contactCount + 1 }
      (n + 1)
      (by simp only [List.length_set]; exact hlen)
      (by show m.contactCount + 1 = ((n + 1 : Nat) : Int); omega)
      (by omega) hnodup.2
      (by
        intro c hc q hq
        obtain ⟨j, hj, hjq⟩ := (mem_storedPoints_iff _ q).mp hq
        have hj' : j < n + 1 := by
          have : (j : Int) < m.contactCount + 1 := hj
          omega
        have hjq' : (m.contacts.set n (storeCandidate p e))[j]? = some q := hjq
        rw [List.getElem?_set] at hjq'
        split_ifs at hjq' with h1 h2
        · cases hjq'
          intro h
          apply hnodup.1
          rw [List.mem_map]
          exact ⟨c, hc, h.symm⟩
        · exact hfresh c (List.mem_cons_of_mem _ hc) q
            ((mem_storedPoints_iff m q).mpr ⟨j, by omega, hjq'⟩))
    refine ⟨m', ?_, ?_, ?_, ?_⟩
    · simp only [contactInsertAll, hres]
      exact hrun
    · rw [hcount]; simp only [List.length_cons]; omega
    · intro j hj
      rw [hkeep j (by omega)]
      exact List.getElem?_set_ne (by omega)
    · intro j c hc
      cases j with
      | zero =>
        simp only [List.getElem?_cons_zero, Option.some.injEq] at hc
        subst hc
        refine ⟨storeCandidate p e, ?_, ⟨rfl, rfl, rfl, rfl⟩⟩
        rw [Nat.add_zero, hkeep n (by omega)]
        exact List.getElem?_set_self (by omega)
      | succ j =>
        simp only [List.getElem?_cons_succ] at hc
        obtain ⟨q, hq, hqc⟩ := hrest j c hc
        refine ⟨q, ?_, hqc⟩
        rw [← hq]
        congr 1
        omega

theorem storedPoints_of_empty (m : ContactManifold) (h : m.contactCount = 0) :
    storedPoints m = [] := by
  unfold storedPoints
  rw [h]
  rfl

/-! ## The replacement index, the id test and the bounds of the scan -/

/-- On non-negative integers, an id that has every bit of another id and
differs from it is the greater of the two. -/
theorem land_eq_right_lt (a b : Int) (ha : 0 ≤ a) (hb : 0 ≤ b) (hne : a ≠ b)
    (hland : Int.land a b = b) : a > b := by
  obtain ⟨n, rfl⟩ := Int.eq_ofNat_of_zero_le ha
  obtain ⟨k, rfl⟩ := Int.eq_ofNat_of_zero_le hb
  have h1 : Int.land (n : Int) (k : Int) = ((n &&& k : Nat) : Int) := rfl
  rw [h1] at hland
  have h2 : n &&& k = k := by exact_mod_cast hland
  have h3 : k ≤ n := by
    rw [← h2]
    exact Nat.and_le_left
  have h4 : n ≠ k := fun h => hne (by rw [h])
  have h5 : k < n := lt_of_le_of_ne h3 (fun h => h4 h.symm)
  exact_mod_cast h5

/-- The two facts the scan leaves about `replacementIndex` determine it as
`exactReplacementIndex`. -/
theorem exactReplacementIndex_of_pick (contacts : List ContactPoint) (r : Nat)
    (p : ContactPoint) (hp : contacts[r]? = some p)
    (hpick : (r = 0 ∧ ∀ q ∈ contacts, q.penetration ≤ -10000) ∨
      (-10000 < p.penetration ∧ (∀ q ∈ contacts, q.penetration ≤ p.penetration) ∧
        ∀ q ∈ contacts.take r, q.penetration < p.penetration)) :
    exactReplacementIndex contacts = r := by
  unfold exactReplacementIndex
  rcases hpick with ⟨h0, hall⟩ | ⟨hgt, hall, hbefore⟩
  · have hnone : contacts.findIdx? (fun p =>
        decide (-10000 < p.penetration ∧ ∀ q ∈ contacts, q.penetration ≤ p.penetration)) = none := by
      rw [List.findIdx?_eq_none_iff]
      intro x hx
      simp only [decide_eq_false_iff_not, not_and]
      intro hx'
      exact absurd (hall x hx) (not_le.mpr hx')
    rw [hnone, h0]
    rfl
  · have hsome : contacts.findIdx? (fun p =>
        decide (-10000 < p.penetration ∧ ∀ q ∈ contacts, q.penetration ≤ p.penetration)) = some r := by
      rw [List.findIdx?_eq_some_iff_getElem]
      obtain ⟨hr, hpr⟩ := List.getElem?_eq_some.mp hp
      refine ⟨hr, ?_, ?_⟩
      · rw [hpr]
        simp only [decide_eq_true_eq]
        exact ⟨hgt, hall⟩
      · intro j hj
        simp only [decide_eq_true_eq, not_and, not_forall]
        intro _
        have hjlt : contacts[j].penetration < p.penetration :=
          hbefore _ ((mem_take_iff_index _ _ _).mpr
            ⟨j, hj, List.getElem?_eq_getElem (by omega)⟩)
        exact ⟨p, List.mem_iff_getElem?.mpr ⟨r, hp⟩, not_le.mpr hjlt⟩
    rw [hsome]
    rfl

/-- The scan of a full manifold that stores no point with the candidate's id
visits every slot and stops with `replacementIndex = exactReplacementIndex`. -/
theorem scanLoop_of_full (MAX : Nat) (m : ContactManifold) (e : EpaResult)
    (hlen : m.contacts.length = MAX) (hpos : 1 ≤ MAX) (hfull : m.contactCount = MAX)
    (hno : ∀ p ∈ storedPoints m, p.id ≠ e.id) :
    ∃ s p, scanLoop MAX m e MAX scanInit = .ok s ∧ s.insertIndex = MAX ∧
      m.contacts[s.replacementIndex]? = some p ∧
      ((s.replacementIndex = 0 ∧ ∀ q ∈ m.contacts, q.penetration ≤ -10000) ∨
        (-10000 < p.penetration ∧ (∀ q ∈ m.contacts, q.penetration ≤ p.penetration) ∧
          ∀ q ∈ m.contacts.take s.replacementIndex, q.penetration < p.penetration)) ∧
      s.replacementIndex = exactReplacementIndex m.contacts := by
  have hno' := index_lt_of_stored m (fun p => p.id ≠ e.id) hno
  obtain ⟨s, hrun, post⟩ := scanLoop_spec MAX m e hlen MAX scanInit (by simp [scanInit])
  obtain ⟨-, pleMax, -, -, pstop, -, -, poverlapMax, ppick⟩ := post
  simp only [scanInit, Nat.zero_le, true_implies, true_and] at poverlapMax ppick
  have hidx : s.insertIndex = MAX := by
    rcases pstop with ⟨p, hp, hid, hcc, -⟩ | hstop
    · exact absurd hid (hno' _ p hcc hp)
    · omega
  rw [hidx] at poverlapMax ppick
  have hr : s.replacementIndex < MAX := by
    rcases ppick with ⟨h, -⟩ | ⟨h, -⟩ <;> omega
  obtain ⟨p, hp⟩ := slot_of_lt m.contacts s.replacementIndex (by omega)
  have hmem : ∀ q ∈ m.contacts, ∃ j, j < MAX ∧ m.contacts[j]? = some q := by
    intro q hq
    obtain ⟨j, hj⟩ := List.mem_iff_getElem?.mp hq
    obtain ⟨h, -⟩ := List.getElem?_eq_some.mp hj
    exact ⟨j, by omega, hj⟩
  have hpick : (s.replacementIndex = 0 ∧ ∀ q ∈ m.contacts, q.penetration ≤ -10000) ∨
      (-10000 < p.penetration ∧ (∀ q ∈ m.contacts, q.penetration ≤ p.penetration) ∧
        ∀ q ∈ m.contacts.take s.replacementIndex, q.penetration < p.penetration) := by
    rcases ppick with ⟨h1, h2⟩ | ⟨-, h2, ⟨q, hq, hqe⟩, h4⟩
    · left
      refine ⟨h1, fun q hq => ?_⟩
      obtain ⟨j, hj, hjq⟩ := hmem q hq
      rw [← h2]
      exact poverlapMax j q hj hjq
    · right
      rw [hp] at hq
      cases hq
      refine ⟨by rw [hqe]; exact h2, fun q hq => ?_, fun q hq => ?_⟩
      · obtain ⟨j, hj, hjq⟩ := hmem q hq
        rw [hqe]
        exact poverlapMax j q hj hjq
      · obtain ⟨j, hj, hjq⟩ := (mem_take_iff_index _ _ _).mp hq
        rw [hqe]
        exact h4 j q hj hjq
  exact ⟨s, p, hrun, hidx, hp, hpick,
    (exactReplacementIndex_of_pick m.contacts _ p hp hpick).symm⟩

/-- The scan never reads outside the array, and the slot the write goes to,
`insertIndex` after a scan that stopped early and `replacementIndex` after a
full one, is inside the array. -/
theorem scanLoop_in_bounds (MAX : Nat) (m : ContactManifold) (e : EpaResult)
    (hlen : m.contacts.length = MAX) (hpos : 1 ≤ MAX) :
    ∃ s, scanLoop MAX m e MAX scanInit = .ok s ∧
      (s.insertIndex < MAX ∨ (s.insertIndex = MAX ∧ s.replacementIndex < MAX)) := by
  obtain ⟨s, hrun, post⟩ := scanLoop_spec MAX m e hlen MAX scanInit (by simp [scanInit])
  obtain ⟨-, pleMax, -, -, -, -, -, -, ppick⟩ := post
  simp only [scanInit] at ppick
  refine ⟨s, hrun, ?_⟩
  rcases Nat.lt_or_ge s.insertIndex MAX with h | h
  · exact Or.inl h
  · right
    refine ⟨by omega, ?_⟩
    rcases ppick with ⟨h1, -⟩ | ⟨-, h1, -⟩ <;> omega

/-! ## Claims -/

/-! ### C1 -/

/-- C1 (update preserves warm-start). If the candidate's id is found among the
stored points, first at slot `i`, then `contactInsert` returns a manifold whose
slot `i` holds the candidate's id, both positions and penetration, whose seven
solver fields in slot `i` are the ones slot `i` had before the call, and whose
`contactCount` is unchanged. The bound `contactCount ≤ MAX_CONTACT_COUNT` is not
needed. -/
theorem contactInsert_update_preserves_warm_start (MAX_CONTACT_COUNT : Nat) (ops : Vector3Ops)
    (m : ContactManifold) (e : EpaResult) (i : Nat) (p : ContactPoint)
    (hlen : m.contacts.length = MAX_CONTACT_COUNT)
    (hi : (i : Int) < m.contactCount) (hp : m.contacts[i]? = some p) (hid : p.id = e.id)
    (hfirst : ∀ q ∈ m.contacts.take i, q.id ≠ e.id) :
    ∃ m' p', contactInsert MAX_CONTACT_COUNT ops m e = .ok m' ∧
      m'.contactCount = m.contactCount ∧ m'.contacts[i]? = some p' ∧
      holdsCandidate p' e ∧ sameWarmStart p' p := by
  have hfirst' : ∀ j q, j < i → m.contacts[j]? = some q → q.id ≠ e.id :=
    fun j q hj hq => hfirst q ((mem_take_iff_index _ _ _).mpr ⟨j, hj, hq⟩)
  refine ⟨_, storeCandidate p e,
    contactInsert_of_first_match MAX_CONTACT_COUNT ops m e i p hlen hi hp hid hfirst', rfl, ?_,
    ⟨rfl, rfl, rfl, rfl⟩, ⟨rfl, rfl, rfl, rfl, rfl, rfl, rfl⟩⟩
  obtain ⟨h, -⟩ := List.getElem?_eq_some.mp hp
  exact List.getElem?_set_self h

/-- C1 at a sample input: two stored points with ids `1` and `2`, candidate with id `2`. -/
theorem contactInsert_update_preserves_warm_start_witness :
    ∃ m' p', contactInsert 2 sampleOps twoPointManifold (sampleCandidate 2 9) = .ok m' ∧
      m'.contactCount = twoPointManifold.contactCount ∧ m'.contacts[1]? = some p' ∧
      holdsCandidate p' (sampleCandidate 2 9) ∧ sameWarmStart p' (samplePoint 2 4 20) :=
  contactInsert_update_preserves_warm_start 2 sampleOps twoPointManifold (sampleCandidate 2 9) 1
    (samplePoint 2 4 20) (by decide) (by decide) (by decide) (by decide) (by decide)

/-! ### C2 -/

/-- C2 (fresh points are zeroed): the code breaks the claim on append. A
manifold of one slot with `contactCount = 0` whose slot still carries solver
values (normal impulse `10`) stores no point with the candidate's id and is not
full; `contactInsert` writes the candidate to slot `0` and counts it, and the
normal impulse of that slot is still `10` afterwards: line 51 clears
`shouldReplace` before the zeroing of lines 65-73, which the replacement of a
point in a full manifold does reach. -/
theorem contactInsert_append_skips_zeroing :
    staleSlotManifold.contacts.length = 1 ∧
    0 ≤ staleSlotManifold.contactCount ∧ staleSlotManifold.contactCount < 1 ∧
    (∀ p ∈ storedPoints staleSlotManifold, p.id ≠ (sampleCandidate 7 5).id) ∧
    ∃ m' p', contactInsert 1 sampleOps staleSlotManifold (sampleCandidate 7 5) = .ok m' ∧
      m'.contactCount = 1 ∧ m'.contacts[0]? = some p' ∧
      holdsCandidate p' (sampleCandidate 7 5) ∧ p'.normalImpulse = 10 ∧ ¬ warmStartZero p' :=
  ⟨by decide, by decide, by decide, by decide,
    ⟨{ setBasis sampleOps staleSlotManifold (sampleCandidate 7 5) with
        contacts := [storeCandidate (samplePoint 9 3 10) (sampleCandidate 7 5)],
        contactCount := 1 },
      storeCandidate (samplePoint 9 3 10) (sampleCandidate 7 5),
      by rfl, by rfl, by rfl, by decide, by rfl, by decide⟩⟩

/-! ### C3 -/

/-- C3 (capacity ceiling). On a manifold with `0 ≤ contactCount ≤
MAX_CONTACT_COUNT`, `contactInsert` returns a manifold with `0 ≤ contactCount ≤
MAX_CONTACT_COUNT`, for every candidate; and after every prefix of every list
of candidates inserted one after the other, starting from such a manifold (an
empty one, `contactCount = 0`, in particular), `contactCount` is still within
`0 .. MAX_CONTACT_COUNT`. The array has `MAX_CONTACT_COUNT ≥ 1` slots. -/
theorem contactInsert_capacity_ceiling (MAX_CONTACT_COUNT : Nat) (ops : Vector3Ops)
    (m : ContactManifold) (e : EpaResult) (es : List EpaResult)
    (hlen : m.contacts.length = MAX_CONTACT_COUNT) (hpos : 1 ≤ MAX_CONTACT_COUNT)
    (h0 : 0 ≤ m.contactCount) (hmax : m.contactCount ≤ MAX_CONTACT_COUNT) :
    (∃ m', contactInsert MAX_CONTACT_COUNT ops m e = .ok m' ∧
      0 ≤ m'.contactCount ∧ m'.contactCount ≤ MAX_CONTACT_COUNT) ∧
    (∀ k, ∃ m', contactInsertAll MAX_CONTACT_COUNT ops m (es.take k) = .ok m' ∧
      0 ≤ m'.contactCount ∧ m'.contactCount ≤ MAX_CONTACT_COUNT) := by
  constructor
  · obtain ⟨m', h, -, h1, h2⟩ :=
      contactInsert_keeps_range MAX_CONTACT_COUNT ops m e hlen hpos h0 hmax
    exact ⟨m', h, h1, h2⟩
  · intro k
    obtain ⟨m', h, -, h1, h2⟩ :=
      contactInsertAll_keeps_range MAX_CONTACT_COUNT ops hpos (es.take k) m hlen h0 hmax
    exact ⟨m', h, h1, h2⟩

/-- C3 at a sample input: three candidates with distinct ids inserted into an
empty manifold of two slots. -/
theorem contactInsert_capacity_ceiling_witness :
    (∃ m', contactInsert 2 sampleOps (emptyManifold 2)
        (sampleCandidate 1 5) = .ok m' ∧ 0 ≤ m'.contactCount ∧ m'.contactCount ≤ (2 : Nat)) ∧
    (∀ k, ∃ m', contactInsertAll 2 sampleOps (emptyManifold 2)
        ([sampleCandidate 1 5, sampleCandidate 2 6, sampleCandidate 4 7].take k) = .ok m' ∧
      0 ≤ m'.contactCount ∧ m'.contactCount ≤ (2 : Nat)) :=
  contactInsert_capacity_ceiling 2 sampleOps (emptyManifold 2)
    (sampleCandidate 1 5) [sampleCandidate 1 5, sampleCandidate 2 6, sampleCandidate 4 7]
    (by decide) (by decide) (by decide) (by decide)

/-! ### C4 -/

/-- C4 (one point per featureId). On a manifold with `0 ≤ contactCount ≤
MAX_CONTACT_COUNT` whose stored points have pairwise distinct ids,
`contactInsert` returns a manifold whose stored points have pairwise distinct
ids, for every candidate; and so does every prefix of every list of candidates
inserted one after the other, starting from such a manifold. An empty manifold
(`contactCount = 0`) stores no point and is such a manifold. The array has
`MAX_CONTACT_COUNT ≥ 1` slots. -/
theorem contactInsert_featureId_unique (MAX_CONTACT_COUNT : Nat) (ops : Vector3Ops)
    (m : ContactManifold) (e : EpaResult) (es : List EpaResult)
    (hlen : m.contacts.length = MAX_CONTACT_COUNT) (hpos : 1 ≤ MAX_CONTACT_COUNT)
    (h0 : 0 ≤ m.contactCount) (hmax : m.contactCount ≤ MAX_CONTACT_COUNT)
    (hnodup : ((storedPoints m).map ContactPoint.id).Nodup) :
    (∃ m', contactInsert MAX_CONTACT_COUNT ops m e = .ok m' ∧
      ((storedPoints m').map ContactPoint.id).Nodup) ∧
    (∀ k, ∃ m', contactInsertAll MAX_CONTACT_COUNT ops m (es.take k) = .ok m' ∧
      ((storedPoints m').map ContactPoint.id).Nodup) := by
  constructor
  · obtain ⟨m', h, -, -, -, h1⟩ :=
      contactInsert_keeps_distinct MAX_CONTACT_COUNT ops m e hlen hpos h0 hmax hnodup
    exact ⟨m', h, h1⟩
  · intro k
    exact contactInsertAll_keeps_distinct MAX_CONTACT_COUNT ops hpos (es.take k) m hlen h0 hmax
      hnodup

/-- C4 at a sample input: a full manifold of two slots with ids `1` and `2`,
then candidates with ids `2` (update), `4` (replace) and `0` (dropped). -/
theorem contactInsert_featureId_unique_witness :
    (∃ m', contactInsert 2 sampleOps twoPointManifold (sampleCandidate 4 9) = .ok m' ∧
      ((storedPoints m').map ContactPoint.id).Nodup) ∧
    (∀ k, ∃ m', contactInsertAll 2 sampleOps twoPointManifold
        ([sampleCandidate 2 5, sampleCandidate 4 6, sampleCandidate 0 7].take k) = .ok m' ∧
      ((storedPoints m').map ContactPoint.id).Nodup) :=
  contactInsert_featureId_unique 2 sampleOps twoPointManifold (sampleCandidate 4 9)
    [sampleCandidate 2 5, sampleCandidate 4 6, sampleCandidate 0 7]
    (by decide) (by decide) (by decide) (by decide) (by decide)

/-! ### C5 -/

/-- C5, as stated, fails when no stored penetration exceeds `-10000`: in a
full manifold of two slots with penetrations `-20000` and `-10000` and ids `1`
and `2`, a candidate with id `4` overwrites slot `0`, whose penetration is the
smaller of the two. -/
theorem contactInsert_replacement_tie_break_counterexample :
    deepManifold.contacts.length = 2 ∧ deepManifold.contactCount = 2 ∧
    (∀ p ∈ storedPoints deepManifold, p.id ≠ (sampleCandidate 4 5).id) ∧
    (∀ p ∈ storedPoints deepManifold,
      ¬ (Int.land p.id (sampleCandidate 4 5).id = (sampleCandidate 4 5).id ∧
        p.id > (sampleCandidate 4 5).id)) ∧
    contactInsert 2 sampleOps deepManifold (sampleCandidate 4 5) =
      .ok { deepManifold with
            contacts := deepManifold.contacts.set 0
              (clearWarmStart (storeCandidate (samplePoint 1 (-20000) 10) (sampleCandidate 4 5))) } ∧
    deepManifold.contacts[0]? = some (samplePoint 1 (-20000) 10) ∧
    samplePoint 2 (-10000) 20 ∈ storedPoints deepManifold ∧
    (samplePoint 1 (-20000) 10).penetration < (samplePoint 2 (-10000) 20).penetration :=
  ⟨by decide, by decide, by decide, by decide, by rfl, by rfl, by decide, by decide⟩

/-- C5, amended. On a full manifold that stores no point with the candidate's
id and no point covering the candidate (line 32), and in which some stored
penetration is greater than `-10000`, `contactInsert` overwrites a slot whose
penetration before the call is greater than or equal to every stored
penetration. -/
theorem contactInsert_replaces_largest_penetration (MAX_CONTACT_COUNT : Nat) (ops : Vector3Ops)
    (m : ContactManifold) (e : EpaResult)
    (hlen : m.contacts.length = MAX_CONTACT_COUNT)
    (hfull : m.contactCount = MAX_CONTACT_COUNT)
    (hno : ∀ p ∈ storedPoints m, p.id ≠ e.id)
    (hnocov : ∀ p ∈ storedPoints m, ¬ (Int.land p.id e.id = e.id ∧ p.id > e.id))
    (hsome : ∃ q ∈ storedPoints m, -10000 < q.penetration) :
    ∃ r p, r < MAX_CONTACT_COUNT ∧ m.contacts[r]? = some p ∧
      (∀ q ∈ storedPoints m, q.penetration ≤ p.penetration) ∧
      contactInsert MAX_CONTACT_COUNT ops m e =
        .ok { m with contacts := m.contacts.set r (clearWarmStart (storeCandidate p e)) } := by
  have hall : storedPoints m = m.contacts := storedPoints_of_full m (by rw [hfull, hlen])
  have hpos : 1 ≤ MAX_CONTACT_COUNT := by
    obtain ⟨q, hq, -⟩ := hsome
    rw [hall] at hq
    have := List.length_pos_of_mem hq
    omega
  have hnocov' : ∀ p ∈ storedPoints m, coversCandidate p e = false :=
    fun p hp => (coversCandidate_eq_false_iff p e).mpr (hnocov p hp)
  obtain ⟨r, p, hr, hp, hpick, hres⟩ :=
    contactInsert_of_replace MAX_CONTACT_COUNT ops m e hlen hpos hfull hno hnocov'
  refine ⟨r, p, hr, hp, ?_, hres⟩
  rw [hall]
  rcases hpick with ⟨-, h⟩ | ⟨-, h, -⟩
  · obtain ⟨q, hq, hqs⟩ := hsome
    rw [hall] at hq
    exact absurd (h q hq) (not_le.mpr hqs)
  · exact h

/-- C5, amended, at a sample input: a full manifold of two slots with
penetrations `3` and `4`, ids `1` and `2`, and a candidate with id `4`. -/
theorem contactInsert_replaces_largest_penetration_witness :
    ∃ r p, r < 2 ∧ twoPointManifold.contacts[r]? = some p ∧
      (∀ q ∈ storedPoints twoPointManifold, q.penetration ≤ p.penetration) ∧
      contactInsert 2 sampleOps twoPointManifold (sampleCandidate 4 9) =
        .ok { twoPointManifold with
              contacts := twoPointManifold.contacts.set r
                (clearWarmStart (storeCandidate p (sampleCandidate 4 9))) } :=
  contactInsert_replaces_largest_penetration 2 sampleOps twoPointManifold (sampleCandidate 4 9)
    (by decide) (by decide) (by decide) (by decide) (by decide)

/-! ### C6 -/

/-- C6 (silent drop is a no-op). On a full manifold of `MAX_CONTACT_COUNT ≥ 1`
slots that stores no point with the candidate's id, if some stored point `p`
has `(p.id & candidate.id) == candidate.id` and `p.id > candidate.id`, then
`contactInsert` returns the manifold it was given: same slots, same
`contactCount`, same normal and tangent vectors. -/
theorem contactInsert_drop_is_noop (MAX_CONTACT_COUNT : Nat) (ops : Vector3Ops)
    (m : ContactManifold) (e : EpaResult)
    (hlen : m.contacts.length = MAX_CONTACT_COUNT) (hpos : 1 ≤ MAX_CONTACT_COUNT)
    (hfull : m.contactCount = MAX_CONTACT_COUNT)
    (hno : ∀ p ∈ storedPoints m, p.id ≠ e.id)
    (hcov : ∃ p ∈ storedPoints m, Int.land p.id e.id = e.id ∧ p.id > e.id) :
    contactInsert MAX_CONTACT_COUNT ops m e = .ok m := by
  obtain ⟨p, hp, hpc⟩ := hcov
  exact contactInsert_of_drop MAX_CONTACT_COUNT ops m e hlen hpos hfull hno
    ⟨p, hp, (coversCandidate_eq_true_iff p e).mpr hpc⟩

/-- C6 at a sample input: a full manifold of two slots with ids `1` and `3`
and a candidate with id `2`, which id `3` covers. -/
theorem contactInsert_drop_is_noop_witness :
    contactInsert 2 sampleOps (sampleManifold [samplePoint 1 3 10, samplePoint 3 4 20] 2)
      (sampleCandidate 2 9) = .ok (sampleManifold [samplePoint 1 3 10, samplePoint 3 4 20] 2) :=
  contactInsert_drop_is_noop 2 sampleOps (sampleManifold [samplePoint 1 3 10, samplePoint 3 4 20] 2)
    (sampleCandidate 2 9) (by decide) (by decide) (by decide) (by decide) (by decide)

/-! ### C7 -/

/-- C7 (append growth). Inserting a list of `k ≤ MAX_CONTACT_COUNT` candidates
with pairwise distinct ids, one after the other, into an empty manifold
(`contactCount = 0`) returns a manifold with `contactCount = k` in which, for
every `j < k`, slot `j` holds the id, both positions and the penetration of the
`j`-th candidate of the list. -/
theorem contactInsertAll_append_growth (MAX_CONTACT_COUNT : Nat) (ops : Vector3Ops)
    (m : ContactManifold) (es : List EpaResult)
    (hlen : m.contacts.length = MAX_CONTACT_COUNT) (hempty : m.contactCount = 0)
    (hk : es.length ≤ MAX_CONTACT_COUNT) (hdistinct : (es.map EpaResult.id).Nodup) :
    ∃ m' : ContactManifold, contactInsertAll MAX_CONTACT_COUNT ops m es = .ok m' ∧
      m'.contactCount = (es.length : Int) ∧
      ∀ (j : Nat) (c : EpaResult), es[j]? = some c →
        ∃ p, m'.contacts[j]? = some p ∧ holdsCandidate p c := by
  obtain ⟨m', hrun, hcount, -, hslots⟩ :=
    contactInsertAll_appends MAX_CONTACT_COUNT ops es m 0 hlen (by simpa using hempty)
      (by omega) hdistinct
      (by
        intro c _ p hp
        rw [storedPoints_of_empty m hempty] at hp
        cases hp)
  refine ⟨m', hrun, by rw [hcount]; simp, ?_⟩
  intro j c hc
  obtain ⟨p, hp, hpc⟩ := hslots j c hc
  rw [Nat.zero_add] at hp
  exact ⟨p, hp, hpc⟩

/-- C7 at a sample input: ids `1`, `2`, `4` into an empty manifold of four slots. -/
theorem contactInsertAll_append_growth_witness :
    ∃ m' : ContactManifold, contactInsertAll 4 sampleOps (emptyManifold 4)
        [sampleCandidate 1 5, sampleCandidate 2 6, sampleCandidate 4 7] = .ok m' ∧
      m'.contactCount = (([sampleCandidate 1 5, sampleCandidate 2 6, sampleCandidate 4 7].length : Nat) : Int) ∧
      ∀ (j : Nat) (c : EpaResult),
        [sampleCandidate 1 5, sampleCandidate 2 6, sampleCandidate 4 7][j]? = some c →
        ∃ p, m'.contacts[j]? = some p ∧ holdsCandidate p c :=
  contactInsertAll_append_growth 4 sampleOps (emptyManifold 4)
    [sampleCandidate 1 5, sampleCandidate 2 6, sampleCandidate 4 7]
    (by decide) (by decide) (by decide) (by decide)

/-! ### C8 -/

/-- C8 (basis computed once). On a manifold with `contactCount ≥ 1`,
`contactInsert` returns a manifold with the normal and the two tangent vectors
it was given, for every candidate. The array has `MAX_CONTACT_COUNT ≥ 1` slots;
`contactCount` may exceed `MAX_CONTACT_COUNT`. -/
theorem contactInsert_basis_computed_once (MAX_CONTACT_COUNT : Nat) (ops : Vector3Ops)
    (m : ContactManifold) (e : EpaResult)
    (hlen : m.contacts.length = MAX_CONTACT_COUNT) (hpos : 1 ≤ MAX_CONTACT_COUNT)
    (hcount : 1 ≤ m.contactCount) :
    ∃ m' : ContactManifold, contactInsert MAX_CONTACT_COUNT ops m e = .ok m' ∧
      m'.normal = m.normal ∧ m'.tangentVectors0 = m.tangentVectors0 ∧
      m'.tangentVectors1 = m.tangentVectors1 := by
  have hout := contactInsert_outcome MAX_CONTACT_COUNT ops m e hlen hpos
  generalize contactInsert MAX_CONTACT_COUNT ops m e = res at hout
  cases hout with
  | update i p hcc hi hp hid hfirst => exact ⟨_, rfl, rfl, rfl, rfl⟩
  | append n p hn hcc hwithin hno hp =>
    rw [setBasis_of_ne ops m e (by omega)]
    exact ⟨_, rfl, rfl, rfl, rfl⟩
  | drop hfull hno j q hj hq hcov => exact ⟨_, rfl, rfl, rfl, rfl⟩
  | replace hfull hno hnocov r p hr hp hpick => exact ⟨_, rfl, rfl, rfl, rfl⟩

/-- C8 at a sample input: one stored point, a candidate with a new id and a
normal that differs from the manifold's. -/
theorem contactInsert_basis_computed_once_witness :
    (sampleCandidate 2 9).normal ≠ (sampleManifold [samplePoint 1 3 10, samplePoint 0 0 0] 1).normal ∧
    ∃ m' : ContactManifold,
      contactInsert 2 sampleOps (sampleManifold [samplePoint 1 3 10, samplePoint 0 0 0] 1)
        (sampleCandidate 2 9) = .ok m' ∧
      m'.normal = (sampleManifold [samplePoint 1 3 10, samplePoint 0 0 0] 1).normal ∧
      m'.tangentVectors0 = (sampleManifold [samplePoint 1 3 10, samplePoint 0 0 0] 1).tangentVectors0 ∧
      m'.tangentVectors1 = (sampleManifold [samplePoint 1 3 10, samplePoint 0 0 0] 1).tangentVectors1 :=
  ⟨by decide,
    contactInsert_basis_computed_once 2 sampleOps
      (sampleManifold [samplePoint 1 3 10, samplePoint 0 0 0] 1) (sampleCandidate 2 9)
      (by decide) (by decide) (by decide)⟩

/-! ### C9 -/

/-- C9 (idempotent re-insertion). On a manifold with `0 ≤ contactCount`,
`contactInsert` returns a manifold on which a second call with the same
candidate returns that same manifold: same slots with all their fields, same
`contactCount`, same normal and tangent vectors. The array has
`MAX_CONTACT_COUNT ≥ 1` slots. -/
theorem contactInsert_idempotent (MAX_CONTACT_COUNT : Nat) (ops : Vector3Ops)
    (m : ContactManifold) (e : EpaResult)
    (hlen : m.contacts.length = MAX_CONTACT_COUNT) (hpos : 1 ≤ MAX_CONTACT_COUNT)
    (h0 : 0 ≤ m.contactCount) (hmax : m.contactCount ≤ MAX_CONTACT_COUNT) :
    ∃ m' : ContactManifold, contactInsert MAX_CONTACT_COUNT ops m e = .ok m' ∧
      contactInsert MAX_CONTACT_COUNT ops m' e = .ok m' := by
  have hout := contactInsert_outcome MAX_CONTACT_COUNT ops m e hlen hpos
  generalize hgen : contactInsert MAX_CONTACT_COUNT ops m e = res at hout
  cases hout with
  | update i p hcc hi hp hid hfirst =>
    refine ⟨_, rfl, ?_⟩
    have hsecond := contactInsert_of_first_match MAX_CONTACT_COUNT ops
      { m with contacts := m.contacts.set i (storeCandidate p e) } e i (storeCandidate p e)
      (by simp only [List.length_set]; exact hlen) hcc
      (List.getElem?_set_self (by omega)) rfl
      (fun j q hj hq => hfirst j q hj (by
        rw [← hq]; exact (List.getElem?_set_ne (by omega)).symm))
    rw [hsecond]
    simp only [List.set_set]
    rfl
  | append n p hn hcc hwithin hno hp =>
    have hn' : (n : Int) = m.contactCount := by omega
    rw [if_pos hn']
    refine ⟨_, rfl, ?_⟩
    have hsecond := contactInsert_of_first_match MAX_CONTACT_COUNT ops
      { setBasis ops m e with
        contacts := m.contacts.set n (storeCandidate p e), contactCount := (n : Int) + 1 }
      e n (storeCandidate p e)
      (by simp only [List.length_set]; exact hlen) (by show (n : Int) < (n : Int) + 1; omega)
      (List.getElem?_set_self (by omega)) rfl
      (fun j q hj hq => hno j q hj (by
        rw [← hq]; exact (List.getElem?_set_ne (by omega)).symm))
    rw [hsecond]
    simp only [List.set_set]
    rfl
  | drop hfull hno j q hj hq hcov => exact ⟨m, rfl, hgen⟩
  | replace hfull hno hnocov r p hr hp hpick =>
    refine ⟨_, rfl, ?_⟩
    have hsecond := contactInsert_of_first_match MAX_CONTACT_COUNT ops
      { m with contacts := m.contacts.set r (clearWarmStart (storeCandidate p e)) } e r
      (clearWarmStart (storeCandidate p e))
      (by simp only [List.length_set]; exact hlen)
      (by show (r : Int) < m.contactCount; omega)
      (List.getElem?_set_self (by omega)) rfl
      (fun j q hj hq => hno j q (by omega) (by
        rw [← hq]; exact (List.getElem?_set_ne (by omega)).symm))
    rw [hsecond]
    simp only [List.set_set]
    rfl

/-- C9 at a sample input: a full manifold of two slots with ids `1` and `2`
and a candidate with id `4`, which replaces a point. -/
theorem contactInsert_idempotent_witness :
    ∃ m' : ContactManifold, contactInsert 2 sampleOps twoPointManifold (sampleCandidate 4 9) = .ok m' ∧
      contactInsert 2 sampleOps m' (sampleCandidate 4 9) = .ok m' :=
  contactInsert_idempotent 2 sampleOps twoPointManifold (sampleCandidate 4 9)
    (by decide) (by decide) (by decide) (by decide)

/-! ### C10 -/

/-- C10 (acceptance outside the drop case). On a manifold with
`0 ≤ contactCount ≤ MAX_CONTACT_COUNT`, unless the manifold is full, stores no
point with the candidate's id and stores a point `p` with
`(p.id & candidate.id) == candidate.id` and `p.id > candidate.id`,
`contactInsert` returns a manifold with a slot below its `contactCount` that
holds the candidate's id, both positions and penetration. The array has
`MAX_CONTACT_COUNT ≥ 1` slots. -/
theorem contactInsert_accepts_outside_drop (MAX_CONTACT_COUNT : Nat) (ops : Vector3Ops)
    (m : ContactManifold) (e : EpaResult)
    (hlen : m.contacts.length = MAX_CONTACT_COUNT) (hpos : 1 ≤ MAX_CONTACT_COUNT)
    (h0 : 0 ≤ m.contactCount) (hmax : m.contactCount ≤ MAX_CONTACT_COUNT)
    (hkeep : ¬ (m.contactCount = MAX_CONTACT_COUNT ∧ (∀ p ∈ storedPoints m, p.id ≠ e.id) ∧
      ∃ p ∈ storedPoints m, Int.land p.id e.id = e.id ∧ p.id > e.id)) :
    ∃ (m' : ContactManifold) (j : Nat) (p' : ContactPoint),
      contactInsert MAX_CONTACT_COUNT ops m e = .ok m' ∧
      (j : Int) < m'.contactCount ∧ m'.contacts[j]? = some p' ∧ holdsCandidate p' e := by
  have hout := contactInsert_outcome MAX_CONTACT_COUNT ops m e hlen hpos
  generalize contactInsert MAX_CONTACT_COUNT ops m e = res at hout
  cases hout with
  | update i p hcc hi hp hid hfirst =>
    exact ⟨_, i, storeCandidate p e, rfl, hcc, List.getElem?_set_self (by omega),
      ⟨rfl, rfl, rfl, rfl⟩⟩
  | append n p hn hcc hwithin hno hp =>
    have hn' : (n : Int) = m.contactCount := by omega
    rw [if_pos hn']
    exact ⟨_, n, storeCandidate p e, rfl, by show (n : Int) < (n : Int) + 1; omega,
      List.getElem?_set_self (by omega), ⟨rfl, rfl, rfl, rfl⟩⟩
  | drop hfull hno j q hj hq hcov =>
    exfalso
    apply hkeep
    refine ⟨by omega, ?_, q, ?_, (coversCandidate_eq_true_iff q e).mp hcov⟩
    · intro p hp
      obtain ⟨i, hi, hip⟩ := (mem_storedPoints_iff m p).mp hp
      exact hno i p (by omega) hip
    · exact (mem_storedPoints_iff m q).mpr ⟨j, by omega, hq⟩
  | replace hfull hno hnocov r p hr hp hpick =>
    exact ⟨_, r, clearWarmStart (storeCandidate p e), rfl, by show (r : Int) < m.contactCount; omega,
      List.getElem?_set_self (by omega), ⟨rfl, rfl, rfl, rfl⟩⟩

/-- C10 at a sample input: a full manifold of two slots with ids `1` and `2`
and a candidate with id `4`, which no stored id covers. -/
theorem contactInsert_accepts_outside_drop_witness :
    ∃ (m' : ContactManifold) (j : Nat) (p' : ContactPoint),
      contactInsert 2 sampleOps twoPointManifold (sampleCandidate 4 9) = .ok m' ∧
      (j : Int) < m'.contactCount ∧ m'.contacts[j]? = some p' ∧
      holdsCandidate p' (sampleCandidate 4 9) :=
  contactInsert_accepts_outside_drop 2 sampleOps twoPointManifold (sampleCandidate 4 9)
    (by decide) (by decide) (by decide) (by decide) (by decide)

/-! ### C11 -/

/-- C11 (replace on a full manifold). On a full manifold of
`MAX_CONTACT_COUNT ≥ 1` slots that stores no point with the candidate's id and
no point `p` with `(p.id & candidate.id) == candidate.id` and
`p.id > candidate.id`, `contactInsert` returns a manifold that differs from
the one it was given in exactly one slot `r`: slot `r` held another id and now
holds the candidate's id, both positions and penetration with the seven solver
fields zero, every other slot is as it was, and `contactCount` is still
`MAX_CONTACT_COUNT`. -/
theorem contactInsert_replace_on_full (MAX_CONTACT_COUNT : Nat) (ops : Vector3Ops)
    (m : ContactManifold) (e : EpaResult)
    (hlen : m.contacts.length = MAX_CONTACT_COUNT) (hpos : 1 ≤ MAX_CONTACT_COUNT)
    (hfull : m.contactCount = MAX_CONTACT_COUNT)
    (hno : ∀ p ∈ storedPoints m, p.id ≠ e.id)
    (hnocov : ∀ p ∈ storedPoints m, ¬ (Int.land p.id e.id = e.id ∧ p.id > e.id)) :
    ∃ (m' : ContactManifold) (r : Nat) (p p' : ContactPoint),
      contactInsert MAX_CONTACT_COUNT ops m e = .ok m' ∧ r < MAX_CONTACT_COUNT ∧
      m.contacts[r]? = some p ∧ p.id ≠ e.id ∧
      m'.contacts[r]? = some p' ∧ holdsCandidate p' e ∧ warmStartZero p' ∧
      (∀ j : Nat, j ≠ r → m'.contacts[j]? = m.contacts[j]?) ∧
      m'.contactCount = MAX_CONTACT_COUNT := by
  have hnocov' : ∀ p ∈ storedPoints m, coversCandidate p e = false :=
    fun p hp => (coversCandidate_eq_false_iff p e).mpr (hnocov p hp)
  obtain ⟨r, p, hr, hp, -, hres⟩ :=
    contactInsert_of_replace MAX_CONTACT_COUNT ops m e hlen hpos hfull hno hnocov'
  refine ⟨_, r, p, clearWarmStart (storeCandidate p e), hres, hr, hp, ?_, ?_,
    ⟨rfl, rfl, rfl, rfl⟩, ⟨rfl, rfl, rfl, rfl, rfl, rfl, rfl⟩, ?_, hfull⟩
  · exact hno p ((mem_storedPoints_iff m p).mpr ⟨r, by omega, hp⟩)
  · exact List.getElem?_set_self (by omega)
  · intro j hj
    exact List.getElem?_set_ne (fun h => hj h.symm)

/-- C11 at the sample input of the claim: `MAX_CONTACT_COUNT = 4`, ids `1`,
`2`, `4`, `8` inserted into an empty manifold, then a candidate with id `16`. -/
theorem contactInsert_replace_on_full_witness :
    contactInsertAll 4 sampleOps (emptyManifold 4) fourCandidates = .ok fourPointManifold ∧
    ∃ (m' : ContactManifold) (r : Nat) (p p' : ContactPoint),
      contactInsert 4 sampleOps fourPointManifold (sampleCandidate 16 9) = .ok m' ∧ r < 4 ∧
      fourPointManifold.contacts[r]? = some p ∧ p.id ≠ (sampleCandidate 16 9).id ∧
      m'.contacts[r]? = some p' ∧ holdsCandidate p' (sampleCandidate 16 9) ∧ warmStartZero p' ∧
      (∀ j : Nat, j ≠ r → m'.contacts[j]? = fourPointManifold.contacts[j]?) ∧
      m'.contactCount = (4 : Nat) :=
  ⟨by rfl,
    contactInsert_replace_on_full 4 sampleOps fourPointManifold (sampleCandidate 16 9)
      (by decide) (by decide) (by decide) (by decide) (by decide)⟩

/-! ### C12 -/

/-- C12 (contactCount changes only on a true append). On a manifold with
`0 ≤ contactCount ≤ MAX_CONTACT_COUNT`, `contactInsert` returns a manifold
whose `contactCount` is one more than before when no stored point has the
candidate's id and `contactCount < MAX_CONTACT_COUNT`, and is the same as before
in every other case; in both cases it is not smaller than before. The array has
`MAX_CONTACT_COUNT ≥ 1` slots. -/
theorem contactInsert_count_changes_on_append_only (MAX_CONTACT_COUNT : Nat) (ops : Vector3Ops)
    (m : ContactManifold) (e : EpaResult)
    (hlen : m.contacts.length = MAX_CONTACT_COUNT) (hpos : 1 ≤ MAX_CONTACT_COUNT)
    (h0 : 0 ≤ m.contactCount) (hmax : m.contactCount ≤ MAX_CONTACT_COUNT) :
    ∃ m' : ContactManifold, contactInsert MAX_CONTACT_COUNT ops m e = .ok m' ∧
      (((∀ p ∈ storedPoints m, p.id ≠ e.id) ∧ m.contactCount < MAX_CONTACT_COUNT) →
        m'.contactCount = m.contactCount + 1) ∧
      (¬ ((∀ p ∈ storedPoints m, p.id ≠ e.id) ∧ m.contactCount < MAX_CONTACT_COUNT) →
        m'.contactCount = m.contactCount) ∧
      m.contactCount ≤ m'.contactCount := by
  have hout := contactInsert_outcome MAX_CONTACT_COUNT ops m e hlen hpos
  generalize contactInsert MAX_CONTACT_COUNT ops m e = res at hout
  cases hout with
  | update i p hcc hi hp hid hfirst =>
    refine ⟨_, rfl, ?_, fun _ => rfl, le_refl _⟩
    rintro ⟨hno, -⟩
    exact absurd hid (hno p ((mem_storedPoints_iff m p).mpr ⟨i, hcc, hp⟩))
  | append n p hn hcc hwithin hno hp =>
    have hn' : (n : Int) = m.contactCount := by omega
    rw [if_pos hn', hn']
    refine ⟨_, rfl, fun _ => rfl, ?_, by show m.contactCount ≤ m.contactCount + 1; omega⟩
    intro hnot
    exfalso
    apply hnot
    refine ⟨fun q hq => ?_, by omega⟩
    obtain ⟨j, hj, hjq⟩ := (mem_storedPoints_iff m q).mp hq
    exact hno j q (by omega) hjq
  | drop hfull hno j q hj hq hcov =>
    refine ⟨_, rfl, ?_, fun _ => rfl, le_refl _⟩
    rintro ⟨-, hlt⟩
    omega
  | replace hfull hno hnocov r p hr hp hpick =>
    refine ⟨_, rfl, ?_, fun _ => rfl, le_refl _⟩
    rintro ⟨-, hlt⟩
    omega

/-- C12 at a sample input: one stored point in a manifold of two slots and a
candidate with a new id, so the count goes from `1` to `2`. -/
theorem contactInsert_count_changes_on_append_only_witness :
    ((∀ p ∈ storedPoints (sampleManifold [samplePoint 1 3 10, samplePoint 0 0 0] 1),
        p.id ≠ (sampleCandidate 2 9).id) ∧
      (sampleManifold [samplePoint 1 3 10, samplePoint 0 0 0] 1).contactCount < (2 : Nat)) ∧
    ∃ m' : ContactManifold,
      contactInsert 2 sampleOps (sampleManifold [samplePoint 1 3 10, samplePoint 0 0 0] 1)
        (sampleCandidate 2 9) = .ok m' ∧
      m'.contactCount = (sampleManifold [samplePoint 1 3 10, samplePoint 0 0 0] 1).contactCount + 1 :=
  ⟨by decide,
    (contactInsert_count_changes_on_append_only 2 sampleOps
      (sampleManifold [samplePoint 1 3 10, samplePoint 0 0 0] 1) (sampleCandidate 2 9)
      (by decide) (by decide) (by decide) (by decide)).elim
      (fun m' h => ⟨m', h.1, h.2.1 (by decide)⟩)⟩

/-! ### C13 -/

/-- C13 (the first insertion defines the shared geometry). On a manifold with
`contactCount = 0`, `contactInsert` returns a manifold whose normal is the
candidate's normal, whose first tangent vector is `vector3Normalize` applied
to `vector3Perp` of that normal, whose second tangent vector is `vector3Cross`
of the normal and the first tangent vector, whose slot `0` holds the
candidate's id, both positions and penetration, and whose `contactCount` is
`1`. The array has `MAX_CONTACT_COUNT ≥ 1` slots. -/
theorem contactInsert_first_defines_geometry (MAX_CONTACT_COUNT : Nat) (ops : Vector3Ops)
    (m : ContactManifold) (e : EpaResult)
    (hlen : m.contacts.length = MAX_CONTACT_COUNT) (hpos : 1 ≤ MAX_CONTACT_COUNT)
    (hempty : m.contactCount = 0) :
    ∃ (m' : ContactManifold) (p' : ContactPoint),
      contactInsert MAX_CONTACT_COUNT ops m e = .ok m' ∧
      m'.normal = e.normal ∧
      m'.tangentVectors0 = ops.vector3Normalize (ops.vector3Perp m'.normal) ∧
      m'.tangentVectors1 = ops.vector3Cross m'.normal m'.tangentVectors0 ∧
      m'.contacts[0]? = some p' ∧ holdsCandidate p' e ∧ m'.contactCount = 1 := by
  have hno : ∀ p ∈ storedPoints m, p.id ≠ e.id := by
    intro p hp
    rw [storedPoints_of_empty m hempty] at hp
    cases hp
  obtain ⟨p, hp, hres⟩ :=
    contactInsert_of_append MAX_CONTACT_COUNT ops m e hlen (by omega) (by omega) hno
  have hz : m.contactCount.toNat = 0 := by omega
  rw [hz] at hp hres
  have hbasis : setBasis ops m e =
      { m with normal := e.normal,
               tangentVectors0 := ops.vector3Normalize (ops.vector3Perp e.normal),
               tangentVectors1 := ops.vector3Cross e.normal
                 (ops.vector3Normalize (ops.vector3Perp e.normal)) } := by
    unfold setBasis
    rw [if_pos hempty]
  rw [hbasis] at hres
  refine ⟨_, storeCandidate p e, hres, rfl, rfl, rfl, ?_, ⟨rfl, rfl, rfl, rfl⟩, ?_⟩
  · exact List.getElem?_set_self (by omega)
  · show m.contactCount + 1 = 1
    omega

/-- C13 at a sample input: an empty manifold of four slots. -/
theorem contactInsert_first_defines_geometry_witness :
    ∃ (m' : ContactManifold) (p' : ContactPoint),
      contactInsert 4 sampleOps (emptyManifold 4) (sampleCandidate 1 5) = .ok m' ∧
      m'.normal = (sampleCandidate 1 5).normal ∧
      m'.tangentVectors0 = sampleOps.vector3Normalize (sampleOps.vector3Perp m'.normal) ∧
      m'.tangentVectors1 = sampleOps.vector3Cross m'.normal m'.tangentVectors0 ∧
      m'.contacts[0]? = some p' ∧ holdsCandidate p' (sampleCandidate 1 5) ∧
      m'.contactCount = 1 :=
  contactInsert_first_defines_geometry 4 sampleOps (emptyManifold 4) (sampleCandidate 1 5)
    (by decide) (by decide) (by decide)

/-! ### C14 -/

/-- C14 (at most one slot is touched). For every manifold and every candidate
there is an index `t` such that `contactInsert` returns a manifold in which
every slot other than slot `t` is equal, field by field, to the slot it was
before the call. The array has `MAX_CONTACT_COUNT ≥ 1` slots; no bound on
`contactCount` is needed. -/
theorem contactInsert_touches_one_slot (MAX_CONTACT_COUNT : Nat) (ops : Vector3Ops)
    (m : ContactManifold) (e : EpaResult)
    (hlen : m.contacts.length = MAX_CONTACT_COUNT) (hpos : 1 ≤ MAX_CONTACT_COUNT) :
    ∃ (m' : ContactManifold) (t : Nat), contactInsert MAX_CONTACT_COUNT ops m e = .ok m' ∧
      ∀ j : Nat, j ≠ t → m'.contacts[j]? = m.contacts[j]? := by
  have hout := contactInsert_outcome MAX_CONTACT_COUNT ops m e hlen hpos
  generalize contactInsert MAX_CONTACT_COUNT ops m e = res at hout
  cases hout with
  | update i p hcc hi hp hid hfirst =>
    exact ⟨_, i, rfl, fun j hj => List.getElem?_set_ne (fun h => hj h.symm)⟩
  | append n p hn hcc hwithin hno hp =>
    exact ⟨_, n, rfl, fun j hj => List.getElem?_set_ne (fun h => hj h.symm)⟩
  | drop hfull hno j q hj hq hcov => exact ⟨_, 0, rfl, fun _ _ => rfl⟩
  | replace hfull hno hnocov r p hr hp hpick =>
    exact ⟨_, r, rfl, fun j hj => List.getElem?_set_ne (fun h => hj h.symm)⟩

/-- C14 at a sample input: a full manifold of two slots and a candidate that
replaces a point. -/
theorem contactInsert_touches_one_slot_witness :
    ∃ (m' : ContactManifold) (t : Nat),
      contactInsert 2 sampleOps twoPointManifold (sampleCandidate 4 9) = .ok m' ∧
      ∀ j : Nat, j ≠ t → m'.contacts[j]? = twoPointManifold.contacts[j]? :=
  contactInsert_touches_one_slot 2 sampleOps twoPointManifold (sampleCandidate 4 9)
    (by decide) (by decide)

/-! ### C15 -/

/-- C15 (exact replacement index). On a full manifold of
`MAX_CONTACT_COUNT ≥ 1` slots that stores no point with the candidate's id, the
scan of `contactInsert` visits every slot and ends with `replacementIndex`
equal to `exactReplacementIndex`: the smallest index whose penetration is
greater than `-10000` and not smaller than any stored penetration, and `0` when
no stored penetration is greater than `-10000`. If moreover no stored point
covers the candidate (line 32), that is the slot `contactInsert` overwrites. In
particular every slot before the chosen one has a strictly smaller
penetration when some stored penetration is greater than `-10000`, and the
chosen slot is slot `0` when none is. -/
theorem contactInsert_exact_replacement_index (MAX_CONTACT_COUNT : Nat) (ops : Vector3Ops)
    (m : ContactManifold) (e : EpaResult)
    (hlen : m.contacts.length = MAX_CONTACT_COUNT) (hpos : 1 ≤ MAX_CONTACT_COUNT)
    (hfull : m.contactCount = MAX_CONTACT_COUNT)
    (hno : ∀ p ∈ storedPoints m, p.id ≠ e.id) :
    ∃ (s : ScanState) (p : ContactPoint),
      scanLoop MAX_CONTACT_COUNT m e MAX_CONTACT_COUNT scanInit = .ok s ∧
      s.insertIndex = MAX_CONTACT_COUNT ∧
      s.replacementIndex = exactReplacementIndex m.contacts ∧
      m.contacts[s.replacementIndex]? = some p ∧
      ((∀ q ∈ storedPoints m, ¬ (Int.land q.id e.id = e.id ∧ q.id > e.id)) →
        contactInsert MAX_CONTACT_COUNT ops m e = .ok { m with
          contacts := m.contacts.set s.replacementIndex (clearWarmStart (storeCandidate p e)) }) ∧
      ((∃ q ∈ storedPoints m, -10000 < q.penetration) →
        -10000 < p.penetration ∧ (∀ q ∈ storedPoints m, q.penetration ≤ p.penetration) ∧
        ∀ q ∈ m.contacts.take s.replacementIndex, q.penetration < p.penetration) ∧
      ((∀ q ∈ storedPoints m, q.penetration ≤ -10000) → s.replacementIndex = 0) := by
  have hall : storedPoints m = m.contacts := storedPoints_of_full m (by rw [hfull, hlen])
  obtain ⟨s, p, hrun, hidx, hp, hpick, hexact⟩ :=
    scanLoop_of_full MAX_CONTACT_COUNT m e hlen hpos hfull hno
  refine ⟨s, p, hrun, hidx, hexact, hp, ?_, ?_, ?_⟩
  · intro hnocov
    have hnocov' : ∀ q ∈ storedPoints m, coversCandidate q e = false :=
      fun q hq => (coversCandidate_eq_false_iff q e).mpr (hnocov q hq)
    obtain ⟨r, p2, -, hp2, hpick2, hres⟩ :=
      contactInsert_of_replace MAX_CONTACT_COUNT ops m e hlen hpos hfull hno hnocov'
    have hr : r = s.replacementIndex := by
      rw [hexact, exactReplacementIndex_of_pick m.contacts r p2 hp2 hpick2]
    subst hr
    rw [hp] at hp2
    cases hp2
    exact hres
  · rintro ⟨q, hq, hqs⟩
    rw [hall] at hq ⊢
    rcases hpick with ⟨-, h⟩ | h
    · exact absurd (h q hq) (not_le.mpr hqs)
    · exact h
  · intro hle
    rw [hall] at hle
    rcases hpick with ⟨h, -⟩ | ⟨h1, -, -⟩
    · exact h
    · exact absurd (hle p (List.mem_iff_getElem?.mpr ⟨_, hp⟩)) (not_le.mpr h1)

/-- C15 at a sample input: penetrations `3`, `7`, `7` in a full manifold of
three slots; the first of the two largest, slot `1`, is chosen. -/
theorem contactInsert_exact_replacement_index_witness :
    exactReplacementIndex tiedManifold.contacts = 1 ∧
    ∃ (s : ScanState) (p : ContactPoint),
      scanLoop 3 tiedManifold (sampleCandidate 8 9) 3 scanInit = .ok s ∧
      s.insertIndex = 3 ∧
      s.replacementIndex = exactReplacementIndex tiedManifold.contacts ∧
      tiedManifold.contacts[s.replacementIndex]? = some p ∧
      ((∀ q ∈ storedPoints tiedManifold,
          ¬ (Int.land q.id (sampleCandidate 8 9).id = (sampleCandidate 8 9).id ∧
            q.id > (sampleCandidate 8 9).id)) →
        contactInsert 3 sampleOps tiedManifold (sampleCandidate 8 9) = .ok { tiedManifold with
          contacts := tiedManifold.contacts.set s.replacementIndex
            (clearWarmStart (storeCandidate p (sampleCandidate 8 9))) }) ∧
      ((∃ q ∈ storedPoints tiedManifold, -10000 < q.penetration) →
        -10000 < p.penetration ∧
        (∀ q ∈ storedPoints tiedManifold, q.penetration ≤ p.penetration) ∧
        ∀ q ∈ tiedManifold.contacts.take s.replacementIndex, q.penetration < p.penetration) ∧
      ((∀ q ∈ storedPoints tiedManifold, q.penetration ≤ -10000) → s.replacementIndex = 0) :=
  ⟨by decide,
    contactInsert_exact_replacement_index 3 sampleOps tiedManifold (sampleCandidate 8 9)
      (by decide) (by decide) (by decide) (by decide)⟩

/-! ### C16 -/

/-- C16 (the numeric comparison of line 32 is redundant for non-negative ids).
For non-negative integers `a ≠ b`, `(a & b) == b` implies `a > b`; so for a
scanned point and a candidate with non-negative, different ids, the test of
line 32 holds exactly when `(point.id & candidate.id) == candidate.id`, and
the pass of the loop over that point leaves `shouldReplace` set exactly when it
was set and that containment fails. In particular a full manifold of
`MAX_CONTACT_COUNT ≥ 1` slots whose stored ids are all non-negative and
non-zero drops a candidate with id `0`: `contactInsert` returns the manifold it
was given. -/
theorem coversCandidate_numeric_test_redundant (MAX_CONTACT_COUNT : Nat) (ops : Vector3Ops)
    (m : ContactManifold) (e : EpaResult)
    (hlen : m.contacts.length = MAX_CONTACT_COUNT) (hpos : 1 ≤ MAX_CONTACT_COUNT)
    (hfull : m.contactCount = MAX_CONTACT_COUNT)
    (hnonneg : ∀ p ∈ storedPoints m, 0 ≤ p.id) (hnonzero : ∀ p ∈ storedPoints m, p.id ≠ 0)
    (hzero : e.id = 0) :
    (∀ a b : Int, 0 ≤ a → 0 ≤ b → a ≠ b → Int.land a b = b → a > b) ∧
    (∀ (p : ContactPoint) (c : EpaResult) (s : ScanState),
      0 ≤ p.id → 0 ≤ c.id → p.id ≠ c.id →
      (coversCandidate p c = true ↔ Int.land p.id c.id = c.id) ∧
      (scanStep p c s).shouldReplace =
        (s.shouldReplace && !decide (Int.land p.id c.id = c.id))) ∧
    contactInsert MAX_CONTACT_COUNT ops m e = .ok m := by
  have hiff : ∀ (p : ContactPoint) (c : EpaResult), 0 ≤ p.id → 0 ≤ c.id → p.id ≠ c.id →
      (coversCandidate p c = true ↔ Int.land p.id c.id = c.id) := by
    intro p c hp hc hne
    rw [coversCandidate_eq_true_iff]
    exact ⟨fun h => h.1, fun h => ⟨h, land_eq_right_lt p.id c.id hp hc hne h⟩⟩
  refine ⟨land_eq_right_lt, ?_, ?_⟩
  · intro p c s hp hc hne
    refine ⟨hiff p c hp hc hne, ?_⟩
    rw [scanStep_shouldReplace]
    congr 2
    rw [Bool.eq_iff_iff, hiff p c hp hc hne, decide_eq_true_eq]
  · have hall : storedPoints m = m.contacts := storedPoints_of_full m (by rw [hfull, hlen])
    obtain ⟨q, hq⟩ := slot_of_lt m.contacts 0 (by omega)
    have hqs : q ∈ storedPoints m := by
      rw [hall]
      exact List.mem_iff_getElem?.mpr ⟨0, hq⟩
    refine contactInsert_of_drop MAX_CONTACT_COUNT ops m e hlen hpos hfull
      (fun p hp => by rw [hzero]; exact hnonzero p hp) ⟨q, hqs, ?_⟩
    rw [hiff q e (hnonneg q hqs) (by omega) (by rw [hzero]; exact hnonzero q hqs), hzero]
    obtain ⟨n, hn⟩ := Int.eq_ofNat_of_zero_le (hnonneg q hqs)
    rw [hn]
    show ((n &&& 0 : Nat) : Int) = 0
    rw [Nat.and_zero]
    rfl

/-- C16 at a sample input: ids `1` and `2` in a full manifold of two slots and
a candidate with id `0`. -/
theorem coversCandidate_numeric_test_redundant_witness :
    contactInsert 2 sampleOps twoPointManifold (sampleCandidate 0 9) = .ok twoPointManifold :=
  (coversCandidate_numeric_test_redundant 2 sampleOps twoPointManifold (sampleCandidate 0 9)
    (by decide) (by decide) (by decide) (by decide) (by decide) (by decide)).2.2

/-! ### C17 -/

/-- C17 (slot accesses stay in bounds). For an array of
`MAX_CONTACT_COUNT ≥ 1` slots, every manifold, whatever its `contactCount`, and
every candidate: the scan of `contactInsert` ends without reading outside the
array, the slot the candidate would be written to (`insertIndex` after a scan
that stopped early, `replacementIndex` after a full one) is below
`MAX_CONTACT_COUNT`, and `contactInsert` returns a manifold; it never ends in
`indexOutOfRange`. -/
theorem contactInsert_slot_accesses_in_bounds (MAX_CONTACT_COUNT : Nat) (ops : Vector3Ops)
    (m : ContactManifold) (e : EpaResult)
    (hlen : m.contacts.length = MAX_CONTACT_COUNT) (hpos : 1 ≤ MAX_CONTACT_COUNT) :
    (∃ s : ScanState, scanLoop MAX_CONTACT_COUNT m e MAX_CONTACT_COUNT scanInit = .ok s ∧
      (s.insertIndex < MAX_CONTACT_COUNT ∨
        (s.insertIndex = MAX_CONTACT_COUNT ∧ s.replacementIndex < MAX_CONTACT_COUNT))) ∧
    (∃ m' : ContactManifold, contactInsert MAX_CONTACT_COUNT ops m e = .ok m') ∧
    contactInsert MAX_CONTACT_COUNT ops m e ≠ .error .indexOutOfRange := by
  have hok : ∃ m' : ContactManifold, contactInsert MAX_CONTACT_COUNT ops m e = .ok m' := by
    have hout := contactInsert_outcome MAX_CONTACT_COUNT ops m e hlen hpos
    generalize contactInsert MAX_CONTACT_COUNT ops m e = res at hout
    cases hout <;> exact ⟨_, rfl⟩
  refine ⟨scanLoop_in_bounds MAX_CONTACT_COUNT m e hlen hpos, hok, ?_⟩
  obtain ⟨m', hm'⟩ := hok
  rw [hm']
  intro h
  cases h

/-- C17 at two sample inputs: a manifold of two slots whose `contactCount` is
`7`, and one whose `contactCount` is `-3`. -/
theorem contactInsert_slot_accesses_in_bounds_witness :
    (∃ m' : ContactManifold,
      contactInsert 2 sampleOps (sampleManifold [samplePoint 1 3 10, samplePoint 2 4 20] 7)
        (sampleCandidate 4 9) = .ok m') ∧
    (∃ m' : ContactManifold,
      contactInsert 2 sampleOps (sampleManifold [samplePoint 1 3 10, samplePoint 2 4 20] (-3))
        (sampleCandidate 4 9) = .ok m') :=
  ⟨(contactInsert_slot_accesses_in_bounds 2 sampleOps
      (sampleManifold [samplePoint 1 3 10, samplePoint 2 4 20] 7) (sampleCandidate 4 9)
      (by decide) (by decide)).2.1,
    (contactInsert_slot_accesses_in_bounds 2 sampleOps
      (sampleManifold [samplePoint 1 3 10, samplePoint 2 4 20] (-3)) (sampleCandidate 4 9)
      (by decide) (by decide)).2.1⟩

end Portal64
